import Mathlib

set_option maxRecDepth 10000

/-!
Verification development for the STL point-cloud pipeline
(`parseSTL` / `parseASCIISTL` / `parseBinarySTL` / `defineShapeBoundary` /
`generatePointsInShape` / `createSparsePointCloud`).

Modelling conventions (shallow embedding of the TypeScript source):

* JavaScript floating-point numbers are modelled as exact rationals `ℚ`.
  The one place where the source can produce a non-finite value (the
  height-colour division) is modelled with the explicit type `JVal`, which
  carries `nan`, `inf` and `ninf` alongside finite values, with the usual
  IEEE propagation rules for the operations the source uses.
* `Math.sqrt`, `Math.sin` and `Math.cos` are irrational-valued library
  functions; they enter the model as function parameters `sq s c : ℚ → ℚ`.
  Theorems state only the properties of these parameters that the real
  functions satisfy (for example `sq 0 = 0`, `s 0 = 0`, `c 0 = 1`,
  positivity on positive arguments), and concrete witnesses instantiate
  them with rational functions that agree with the real ones at every
  argument the run actually evaluates.
* `Vector3.distanceTo p q < m` and `> m` comparisons are embedded in the
  equivalent squared form `dist2 p q < m ^ 2` (for the nonnegative radii
  the pipeline uses, `Real.sqrt x < m ↔ x < m ^ 2`); the minimum distance
  and hollow radius the source computes are nonnegative whenever any
  candidate exists.
* 32-bit floats in the binary STL format are tracked as their little-endian
  bit patterns (naturals below `2 ^ 32`); `DataView.getFloat32` and
  `getUint32` both read 4 little-endian bytes, and decoding keeps the bits.
  An out-of-range `DataView` read raises `RangeError` in JavaScript; the
  byte readers model this with `Except` and `STLError.rangeError`.
* The spatial hash key of the source is the string `"x,y,z"` built from the
  three floored cell coordinates; that formatting is injective on integer
  triples, so keys are modelled as `ℤ × ℤ × ℤ`.  Pushing into a bucket is
  modelled by prepending (bucket order is never observed, only membership).
* The Fisher–Yates shuffle draws from `Math.random`; it is modelled as a
  function parameter `shuffle`, and theorems that need it assume only that
  it permutes its input.
-/

namespace PointCloud

/-- A JavaScript number: a finite rational, `NaN`, `Infinity` or
`-Infinity`.  Used on the colour path, where `(y - minY) / size.y` can be
`0 / 0 = NaN` for a mesh that is flat in `y`. -/
inductive JVal where
  | num (q : ℚ)
  | nan
  | inf
  | ninf
deriving DecidableEq

/-- JavaScript addition on `JVal` (IEEE semantics). -/
def jadd : JVal → JVal → JVal
  | .nan, _ => .nan
  | _, .nan => .nan
  | .num a, .num b => .num (a + b)
  | .inf, .ninf => .nan
  | .ninf, .inf => .nan
  | .inf, _ => .inf
  | _, .inf => .inf
  | .ninf, _ => .ninf
  | _, .ninf => .ninf

/-- JavaScript multiplication on `JVal` (IEEE semantics; `Infinity * 0 = NaN`). -/
def jmul : JVal → JVal → JVal
  | .nan, _ => .nan
  | _, .nan => .nan
  | .num a, .num b => .num (a * b)
  | .inf, .num b => if 0 < b then .inf else if b < 0 then .ninf else .nan
  | .num a, .inf => if 0 < a then .inf else if a < 0 then .ninf else .nan
  | .ninf, .num b => if 0 < b then .ninf else if b < 0 then .inf else .nan
  | .num a, .ninf => if 0 < a then .ninf else if a < 0 then .inf else .nan
  | .inf, .inf => .inf
  | .inf, .ninf => .ninf
  | .ninf, .inf => .ninf
  | .ninf, .ninf => .inf

/-- JavaScript division on `JVal`.  The source only ever divides finite
values; `0 / 0 = NaN` and `±x / 0 = ±Infinity` as in IEEE. -/
def jdiv : JVal → JVal → JVal
  | .nan, _ => .nan
  | _, .nan => .nan
  | .num a, .num b =>
      if b = 0 then (if a = 0 then .nan else if 0 < a then .inf else .ninf)
      else .num (a / b)
  | .inf, .num b => if b < 0 then .ninf else .inf
  | .ninf, .num b => if b < 0 then .inf else .ninf
  | .num _, .inf => .num 0
  | .num _, .ninf => .num 0
  | _, _ => .nan

/-- `Math.min` on `JVal`: `NaN` if either argument is `NaN`. -/
def jmin : JVal → JVal → JVal
  | .nan, _ => .nan
  | _, .nan => .nan
  | .num a, .num b => .num (min a b)
  | .ninf, _ => .ninf
  | _, .ninf => .ninf
  | .inf, x => x
  | x, .inf => x

/-- `Math.max` on `JVal`: `NaN` if either argument is `NaN`. -/
def jmax : JVal → JVal → JVal
  | .nan, _ => .nan
  | _, .nan => .nan
  | .num a, .num b => .num (max a b)
  | .inf, _ => .inf
  | _, .inf => .inf
  | .ninf, x => x
  | x, .ninf => x

/-- A 3D point/vector (`THREE.Vector3`) with exact rational coordinates. -/
structure V3 where
  x : ℚ
  y : ℚ
  z : ℚ
deriving DecidableEq

/-- Componentwise subtraction (`THREE.Vector3.subVectors`). -/
def subV (a b : V3) : V3 := ⟨a.x - b.x, a.y - b.y, a.z - b.z⟩

/-- Squared Euclidean distance.  `Vector3.distanceTo` is its square root;
all comparisons in the source compare it against nonnegative radii, which
is equivalent to comparing `dist2` against the squared radius. -/
def dist2 (a b : V3) : ℚ := (a.x - b.x) ^ 2 + (a.y - b.y) ^ 2 + (a.z - b.z) ^ 2

/-- A triangle: the three `Vector3` vertices pushed by `defineShapeBoundary`. -/
def Tri : Type := V3 × V3 × V3

instance : DecidableEq Tri := by unfold Tri; infer_instance

/-- Squared magnitude of `edge1.cross(edge2)` for a face `(v1, v2, v3)`,
with `edge1 = v2 - v1` and `edge2 = v3 - v1` as in the source; the source's
`length()` is the square root of this value. -/
def crossMagSq (t : Tri) : ℚ :=
  let e1 := subV t.2.1 t.1
  let e2 := subV t.2.2 t.1
  (e1.y * e2.z - e1.z * e2.y) ^ 2 + (e1.z * e2.x - e1.x * e2.z) ^ 2 +
    (e1.x * e2.y - e1.y * e2.x) ^ 2

/-- Barycentric interpolation: `new Vector3().addScaledVector(v1, u)
.addScaledVector(v2, v).addScaledVector(v3, w)`. -/
def baryPoint (t : Tri) (u v w : ℚ) : V3 :=
  ⟨u * t.1.x + v * t.2.1.x + w * t.2.2.x,
   u * t.1.y + v * t.2.1.y + w * t.2.2.y,
   u * t.1.z + v * t.2.1.z + w * t.2.2.z⟩

/-! ### STL decoder -/

/-- Errors a decode can surface.  The source never constructs a
`FormatError`; `rangeError` is the `RangeError` thrown by an out-of-range
`DataView` access. -/
inductive STLError where
  | formatError
  | rangeError
deriving DecidableEq

/-- Read 4 little-endian bytes at `off` as a 32-bit word.  Models both
`DataView.getUint32(off, true)` and `DataView.getFloat32(off, true)` (the
latter reinterprets the same bits; the embedding keeps the bits).  An
out-of-range access raises `RangeError`. -/
def getWordLE (buf : List ℕ) (off : ℕ) : Except STLError ℕ :=
  if off + 4 ≤ buf.length then
    .ok (buf.getD off 0 + 256 * buf.getD (off + 1) 0 + 65536 * buf.getD (off + 2) 0 +
      16777216 * buf.getD (off + 3) 0)
  else .error .rangeError

/-- Read `k` consecutive 32-bit little-endian words starting at `off`. -/
def readWords (buf : List ℕ) : ℕ → ℕ → Except STLError (List ℕ)
  | _, 0 => .ok []
  | off, k + 1 => do
    let w ← getWordLE buf off
    let rest ← readWords buf (off + 4) k
    .ok (w :: rest)

/-- Decode the records of a binary STL: for each of `n` records at `off`,
skip 12 normal bytes, read 9 float words, skip 2 attribute bytes (the
attribute bytes are never accessed, only stepped over). -/
def parseBinRecords (buf : List ℕ) : ℕ → ℕ → Except STLError (List ℕ)
  | 0, _ => .ok []
  | n + 1, off => do
    let ws ← readWords buf (off + 12) 9
    let rest ← parseBinRecords buf n (off + 50)
    .ok (ws ++ rest)

/-- `parseBinarySTL`: triangle count from bytes 80–83, then the records
starting at offset 84.  There is no bounds check against the declared
count; a truncated buffer fails only when a read actually lands out of
range. -/
def parseBinarySTL (buf : List ℕ) : Except STLError (List ℕ) := do
  let n ← getWordLE buf 80
  parseBinRecords buf n 84

/-! ASCII parsing.  `TextDecoder().decode` produces a string; strings are
modelled as their character lists (exact for the ASCII range an STL uses),
and the JavaScript string methods the source calls (`split`, `trim`,
`startsWith`, `Number`) are given structural models below. -/

/-- Split a character list at every occurrence of a separator, keeping
empty segments — `data.split('\n')`. -/
def splitOnChar (sep : Char) : List Char → List (List Char)
  | [] => [[]]
  | ch :: rest =>
    let r := splitOnChar sep rest
    if ch = sep then [] :: r
    else (ch :: r.headD []) :: r.tail

/-- The whitespace characters relevant to one STL line (a line no longer
contains `'\n'`); matches JavaScript `\s` on such lines. -/
def isWS (ch : Char) : Bool :=
  ch = ' ' || ch = '\t' || ch = '\r'

/-- `String.prototype.trim`. -/
def trimChars (cs : List Char) : List Char :=
  ((cs.dropWhile isWS).reverse.dropWhile isWS).reverse

/-- `String.prototype.startsWith`. -/
def startsWithTok : List Char → List Char → Bool
  | [], _ => true
  | _ :: _, [] => false
  | p :: ps, ch :: cs => p = ch && startsWithTok ps cs

/-- `line.split(/\s+/)` on a trimmed line: whitespace-separated tokens,
with no empty tokens. -/
def tokensOf (cs : List Char) : List (List Char) :=
  (splitOnChar ' ' ((cs.map (fun ch => if isWS ch then ' ' else ch)))).filter
    (fun t => t ≠ [])

/-- The characters of `vertex`. -/
def vertexTok : List Char := ['v', 'e', 'r', 't', 'e', 'x']

/-- Digit-fold helper for `Number`. -/
def digitsVal (cs : List Char) : ℕ :=
  cs.foldl (fun a ch => 10 * a + (ch.toNat - 48)) 0

/-- `Number(tok)` on a whitespace-free token, for decimal literals:
optional sign, digits, optional fractional part.  Non-numeric tokens give
`NaN` as in JavaScript.  (Exponent and hexadecimal forms are not modelled;
no input considered here uses them.) -/
def jsNumber (tok : List Char) : JVal :=
  let signed : Bool × List Char :=
    match tok with
    | '-' :: r => (true, r)
    | '+' :: r => (false, r)
    | _ => (false, tok)
  let mag : Option ℚ :=
    match splitOnChar '.' signed.2 with
    | [ip] =>
        if ip ≠ [] ∧ ip.all Char.isDigit then some ((digitsVal ip : ℕ) : ℚ)
        else none
    | [ip, fp] =>
        if (ip ≠ [] ∨ fp ≠ []) ∧ ip.all Char.isDigit ∧ fp.all Char.isDigit then
          some (((digitsVal ip : ℕ) : ℚ) + ((digitsVal fp : ℕ) : ℚ) / 10 ^ fp.length)
        else none
    | _ => none
  match mag with
  | none => .nan
  | some q => .num (if signed.1 then -q else q)

/-- The numeric values a single line contributes in `parseASCIISTL`: if the
trimmed line starts with `vertex`, split it on whitespace, drop the leading
token and convert the rest with `Number`; otherwise nothing.  Note there is
no check that exactly three tokens follow. -/
def lineVertexVals (line : List Char) : List JVal :=
  let t := trimChars line
  if startsWithTok vertexTok t then ((tokensOf t).drop 1).map jsNumber
  else []

/-- `parseASCIISTL`: split the text into lines and concatenate every
line's vertex values.  This function is total — the ASCII path never
raises an error. -/
def parseASCIISTL (data : List Char) : List JVal :=
  (splitOnChar '\n' data).foldr (fun line acc => lineVertexVals line ++ acc) []

/-- The five bytes of the ASCII text `solid`. -/
def solidBytes : List ℕ := [115, 111, 108, 105, 100]

/-- Format detection in `parseSTL`: ASCII iff the buffer is shorter than 80
bytes or its first five bytes spell `solid`. -/
def isASCIISTL (buf : List ℕ) : Bool :=
  buf.length < 80 || decide (buf.take 5 = solidBytes)

/-- `TextDecoder().decode` restricted to the ASCII range: each byte becomes
one character. -/
def asciiDecode (buf : List ℕ) : List Char :=
  buf.map Char.ofNat

/-- The decoder's output: the ASCII path yields JavaScript numbers parsed
from text, the binary path yields 32-bit float words. -/
inductive ParsedSTL where
  | ascii (vs : List JVal)
  | bin (ws : List ℕ)
deriving DecidableEq

deriving instance DecidableEq for Except

/-- `parseSTL`: dispatch on the format test, then run the matching parser. -/
def parseSTL (buf : List ℕ) : Except STLError ParsedSTL :=
  if isASCIISTL buf then .ok (.ascii (parseASCIISTL (asciiDecode buf)))
  else (parseBinarySTL buf).map .bin

/-! ### Binary STL encoder (spec side, for the round-trip claim) -/

/-- The four little-endian bytes of a 32-bit word. -/
def le4 (w : ℕ) : List ℕ :=
  [w % 256, w / 256 % 256, w / 65536 % 256, w / 16777216 % 256]

/-- Modelled from the spec: one 50-byte binary STL record — 12 normal
bytes (zeros; the decoder discards them), nine little-endian 32-bit float
words, and 2 attribute bytes (zeros; the decoder skips them).  The
repository contains no encoder; this follows the fixed layout stated in
the spec's round-trip property. -/
def encodeTriangle (t : List ℕ) : List ℕ :=
  List.replicate 12 0 ++ t.flatMap le4 ++ [0, 0]

/-- Modelled from the spec: a whole binary STL buffer — an 80-byte header
that does not begin with `solid` (zeros), the little-endian triangle
count, then the 50-byte records. -/
def encodeBinarySTL (tris : List (List ℕ)) : List ℕ :=
  List.replicate 80 0 ++ le4 tris.length ++ tris.flatMap encodeTriangle

/-! ### Shape boundary analyzer -/

/-- Indexing into the parsed vertex array: `THREE.Vector3`'s constructor
turns a missing (`undefined`) component into `0`, so out-of-range reads
default to `0`. -/
def vget (vs : List ℚ) (i : ℕ) : ℚ := vs.getD i 0

/-- The triangle list built by `defineShapeBoundary`'s
`for (i = 0; i < vertices.length; i += 9)` loop. -/
def facesOf (vs : List ℚ) : List Tri :=
  (List.range ((vs.length + 8) / 9)).map (fun k =>
    (⟨vget vs (9 * k), vget vs (9 * k + 1), vget vs (9 * k + 2)⟩,
     ⟨vget vs (9 * k + 3), vget vs (9 * k + 4), vget vs (9 * k + 5)⟩,
     ⟨vget vs (9 * k + 6), vget vs (9 * k + 7), vget vs (9 * k + 8)⟩))

/-- All vertices of a face list, in traversal order (used for the
bounding-box fold). -/
def faceVerts (faces : List Tri) : List V3 :=
  faces.foldr (fun t acc => t.1 :: t.2.1 :: t.2.2 :: acc) []

/-- Fold of `Math.min` over a coordinate list.  The source initialises the
accumulator with `Infinity`; for a nonempty list that equals folding from
the first element.  For an empty list the JavaScript value is `Infinity`,
represented here by an arbitrary default that no claim ever reads (an
empty mesh has `totalArea = 0`, produces no candidates, and its box is
never consulted). -/
def foldMinQ (l : List ℚ) : ℚ :=
  match l with
  | [] => 0
  | a :: r => r.foldl min a

/-- Fold of `Math.max` over a coordinate list; see `foldMinQ`. -/
def foldMaxQ (l : List ℚ) : ℚ :=
  match l with
  | [] => 0
  | a :: r => r.foldl max a

/-- The axis-aligned bounding box with its derived size. -/
structure BBox3 where
  min : V3
  max : V3
  size : V3
deriving DecidableEq

/-- The record returned by `defineShapeBoundary`. -/
structure ShapeBoundary where
  faces : List Tri
  faceAreas : List ℚ
  totalArea : ℚ
  boundingBox : BBox3
  objectCenter : V3
  hollowRadius : ℚ
deriving DecidableEq

/-- `defineShapeBoundary`: face areas via the half cross-product magnitude
(`sq` is `Math.sqrt`), total area, bounding box, box-midpoint center, and
`hollowRadius = 0.2 * max(size.x, size.y, size.z)`. -/
def defineShapeBoundary (sq : ℚ → ℚ) (vs : List ℚ) : ShapeBoundary :=
  let faces := facesOf vs
  let faceAreas := faces.map (fun t => sq (crossMagSq t) * (1 / 2))
  let totalArea := faceAreas.foldl (fun s a => s + a) 0
  let verts := faceVerts faces
  let minX := foldMinQ (verts.map V3.x)
  let maxX := foldMaxQ (verts.map V3.x)
  let minY := foldMinQ (verts.map V3.y)
  let maxY := foldMaxQ (verts.map V3.y)
  let minZ := foldMinQ (verts.map V3.z)
  let maxZ := foldMaxQ (verts.map V3.z)
  { faces := faces
    faceAreas := faceAreas
    totalArea := totalArea
    boundingBox :=
      { min := ⟨minX, minY, minZ⟩
        max := ⟨maxX, maxY, maxZ⟩
        size := ⟨maxX - minX, maxY - minY, maxZ - minZ⟩ }
    objectCenter := ⟨(minX + maxX) * (1 / 2), (minY + maxY) * (1 / 2), (minZ + maxZ) * (1 / 2)⟩
    hollowRadius := max (max (maxX - minX) (maxY - minY)) (maxZ - minZ) * (2 / 10) }

/-! ### Point distribution sampler -/

/-- A candidate: the sampled surface point together with the index of the
face it came from. -/
def Cand : Type := V3 × ℕ

instance : DecidableEq Cand := by unfold Cand; infer_instance

/-- Concatenation-map over a list (the effect of pushing inside nested
loops); own definition to keep its lemmas version-stable. -/
def joinMap (f : α → List β) : List α → List β
  | [] => []
  | a :: l => f a ++ joinMap f l

/-- Pair each element with its index, starting at `i` (the `forEach`
callback's index argument). -/
def withIdx (i : ℕ) : List α → List (ℕ × α)
  | [] => []
  | a :: l => (i, a) :: withIdx (i + 1) l

/-- `Math.ceil(Math.sqrt(n))` for a natural argument: the least `k` with
`n ≤ k * k` (searched structurally; `k = n` always qualifies). -/
def ceilSqrt (n : ℕ) : ℕ :=
  (((List.range (n + 1)).find? (fun k => decide (n ≤ k * k))).getD n)

/-- `Math.max(1, Math.floor((area / totalArea) * targetPointCount * 3))`,
the face-local sample budget (only evaluated when `totalArea ≠ 0`). -/
def faceSampleCount (area totalArea : ℚ) (target : ℕ) : ℕ :=
  (max 1 ⌊area / totalArea * (target : ℚ) * 3⌋).toNat

/-- The barycentric grid of one face at resolution `spe`: the source's
nested `for i in [0..spe], for j in [0..spe-i]` loops, keeping a point when
`w = 1 - u - v ≥ 0` (with `u = i/spe`, `v = j/spe`). -/
def faceGrid (t : Tri) (fi spe : ℕ) : List Cand :=
  joinMap (fun (i : ℕ) =>
      (List.range (spe - i + 1)).filterMap (fun (j : ℕ) =>
        let u : ℚ := (i : ℚ) / (spe : ℚ)
        let v : ℚ := (j : ℚ) / (spe : ℚ)
        let w : ℚ := 1 - u - v
        if 0 ≤ w then some (baryPoint t u v w, fi) else none))
    (List.range (spe + 1))

/-- The candidates of one face: its barycentric grid at the resolution
`samplesPerEdge = ceil(sqrt(faceSamples))`. -/
def faceCandidates (totalArea : ℚ) (target : ℕ) (fi : ℕ) (t : Tri) (area : ℚ) : List Cand :=
  faceGrid t fi (ceilSqrt (faceSampleCount area totalArea target))

/-- Candidate generation over all faces with the global cap of
`targetPointCount * 5` candidates.  The source's cap `break` leaves only
the inner loop, but since the check precedes every push the pushed stream
is exactly the first `5 * target` elements of the uncapped enumeration.
When `totalArea = 0` the JavaScript budget is `Math.max(1, NaN) = NaN`, the
grid resolution is `NaN`, and both loop bounds fail, so no face contributes
any candidate. -/
def genCandidates (sb : ShapeBoundary) (target : ℕ) : List Cand :=
  if sb.totalArea = 0 then []
  else
    (joinMap (fun p => faceCandidates sb.totalArea target p.1 p.2.1 p.2.2)
        (withIdx 0 (sb.faces.zip sb.faceAreas))).take (target * 5)

/-- A spatial-hash key.  The source formats the three floored cell
coordinates as the string `"x,y,z"`, which is injective on integer
triples. -/
def Key : Type := ℤ × ℤ × ℤ

instance : DecidableEq Key := by unfold Key; infer_instance

/-- `getHashKey`: floor-divide each coordinate by the cell size. -/
def getHashKey (cell : ℚ) (p : V3) : Key :=
  (⌊p.x / cell⌋, ⌊p.y / cell⌋, ⌊p.z / cell⌋)

/-- `addToSpatialHash`: push the point into its cell's bucket. -/
def addToSpatialHash (cell : ℚ) (h : Key → List V3) (p : V3) : Key → List V3 :=
  fun k => if k = getHashKey cell p then p :: h k else h k

/-- The 27 cell offsets of the source's `dx`/`dy`/`dz` triple loop. -/
def neighborOffsets : List (ℤ × ℤ × ℤ) :=
  joinMap (fun dx => joinMap (fun dy => [(dx, dy, -1), (dx, dy, 0), (dx, dy, 1)])
    [-1, 0, 1]) [-1, 0, 1]

/-- `isValidDistance`: true iff no point in the 3×3×3 cell neighborhood is
strictly within `minDistance` of `p` (squared-distance form). -/
def isValidDistance (cell md : ℚ) (h : Key → List V3) (p : V3) : Bool :=
  neighborOffsets.all (fun d =>
    (h (⌊p.x / cell⌋ + d.1, ⌊p.y / cell⌋ + d.2.1, ⌊p.z / cell⌋ + d.2.2)).all
      (fun q => !(decide (dist2 p q < md ^ 2))))

/-- `isPointInValidRegion`: the candidate's distance from the center must
strictly exceed the hollow radius (squared form). -/
def isPointInValidRegion (center : V3) (r : ℚ) (p : V3) : Bool :=
  decide (r ^ 2 < dist2 p center)

/-- The per-point colour of the source: height factor
`(y - boxMin.y) / boxSize.y` (NaN when the box is flat in `y`), base
intensity `0.6 + 0.4 h`, sinusoidal variation
`0.1 * (sin(10 x) + cos(10 z))`, clamp to `[0.3, 1.0]`, and the
blue-shifted scale `(0.9, 1.0, 1.2)`. -/
def colorOf (bminY bsizeY : ℚ) (s c : ℚ → ℚ) (p : V3) : JVal × JVal × JVal :=
  let heightFactor := jdiv (.num (p.y - bminY)) (.num bsizeY)
  let baseIntensity := jadd (.num (6 / 10)) (jmul heightFactor (.num (4 / 10)))
  let positionVariation : ℚ := (s (p.x * 10) + c (p.z * 10)) * (1 / 10)
  let intensity := jmax (.num (3 / 10)) (jmin (.num 1) (jadd baseIntensity (.num positionVariation)))
  (jmul intensity (.num (9 / 10)), jmul intensity (.num 1), jmul intensity (.num (12 / 10)))

/-- The mutable state of the acceptance loop: accepted points in order,
their colours, and the spatial hash. -/
structure SelState where
  selected : List V3
  colors : List (JVal × JVal × JVal)
  hash : Key → List V3

/-- The filtered-acceptance loop of `generatePointsInShape`: walk the
shuffled candidates; stop once `target` points are selected; accept a
candidate passing both the hollow-region and the minimum-distance test,
inserting it into the hash and emitting its position and colour. -/
def selectGo (cell md : ℚ) (center : V3) (r bminY bsizeY : ℚ) (s c : ℚ → ℚ)
    (target : ℕ) : List Cand → SelState → SelState
  | [], st => st
  | cand :: rest, st =>
    if target ≤ st.selected.length then st
    else if isPointInValidRegion center r cand.1 && isValidDistance cell md st.hash cand.1 then
      selectGo cell md center r bminY bsizeY s c target rest
        { selected := st.selected ++ [cand.1]
          colors := st.colors ++ [colorOf bminY bsizeY s c cand.1]
          hash := addToSpatialHash cell st.hash cand.1 }
    else selectGo cell md center r bminY bsizeY s c target rest st

/-- The sampler's output: positions and the aligned colours. -/
structure PCData where
  points : List V3
  colors : List (JVal × JVal × JVal)
deriving DecidableEq

/-- `minDistance = Math.sqrt(totalArea / targetPointCount) * 0.8 * 0.7`. -/
def minDistanceOf (sq : ℚ → ℚ) (totalArea : ℚ) (target : ℕ) : ℚ :=
  sq (totalArea / (target : ℚ)) * (8 / 10) * (7 / 10)

/-- `generatePointsInShape`: derive `minDistance` and `cellSize`
(`cellSize = minDistance`), generate and shuffle candidates, then run the
filtered acceptance loop from an empty state. -/
def generatePointsInShape (sq s c : ℚ → ℚ) (shuffle : List Cand → List Cand)
    (sb : ShapeBoundary) (target : ℕ) : PCData :=
  let md := minDistanceOf sq sb.totalArea target
  let shuffled := shuffle (genCandidates sb target)
  let st := selectGo md md sb.objectCenter sb.hollowRadius sb.boundingBox.min.y
    sb.boundingBox.size.y s c target shuffled ⟨[], [], fun _ => []⟩
  ⟨st.selected, st.colors⟩

/-- `createSparsePointCloud`: analyzer then sampler. -/
def createSparsePointCloud (sq s c : ℚ → ℚ) (shuffle : List Cand → List Cand)
    (vertices : List ℚ) (target : ℕ) : PCData :=
  generatePointsInShape sq s c shuffle (defineShapeBoundary sq vertices) target

/-! ### Generic list helpers -/

@[simp] lemma joinMap_nil (f : α → List β) : joinMap f [] = [] := rfl

@[simp] lemma joinMap_cons (f : α → List β) (a : α) (l : List α) :
    joinMap f (a :: l) = f a ++ joinMap f l := rfl

lemma mem_joinMap {f : α → List β} {b : β} {l : List α} :
    b ∈ joinMap f l ↔ ∃ a ∈ l, b ∈ f a := by
  induction l with
  | nil => simp
  | cons a l ih => simp [ih]

@[simp] lemma withIdx_nil (i : ℕ) : withIdx i ([] : List α) = [] := rfl

@[simp] lemma withIdx_cons (i : ℕ) (a : α) (l : List α) :
    withIdx i (a :: l) = (i, a) :: withIdx (i + 1) l := rfl

lemma mem_withIdx {l : List α} {i : ℕ} {p : ℕ × α} (h : p ∈ withIdx i l) : p.2 ∈ l := by
  induction l generalizing i with
  | nil => simp [withIdx] at h
  | cons a l ih =>
    rcases List.mem_cons.mp h with h | h
    · simp [h]
    · exact List.mem_cons_of_mem _ (ih h)

lemma mem_of_mem_take {l : List α} {n : ℕ} {a : α} (h : a ∈ l.take n) : a ∈ l :=
  List.take_subset n l h

/-! ### Acceptance-loop structure lemmas -/

/-- Every point the loop selects was already selected, or is a candidate
from the input list that passed the hollow-region check. -/
lemma selectGo_mem_selected {cell md : ℚ} {center : V3} {r bminY bsizeY : ℚ}
    {s c : ℚ → ℚ} {target : ℕ} :
    ∀ {l : List Cand} {st : SelState} {p : V3},
      p ∈ (selectGo cell md center r bminY bsizeY s c target l st).selected →
      p ∈ st.selected ∨ ∃ cd ∈ l, p = cd.1 ∧ isPointInValidRegion center r cd.1 = true
  | [], st, p => fun h => Or.inl h
  | cand :: rest, st, p => by
    intro h
    rw [selectGo] at h
    by_cases hb : target ≤ st.selected.length
    · rw [if_pos hb] at h
      exact Or.inl h
    rw [if_neg hb] at h
    by_cases hacc : isPointInValidRegion center r cand.1 &&
        isValidDistance cell md st.hash cand.1
    · rw [if_pos hacc] at h
      rcases selectGo_mem_selected h with h2 | ⟨cd, hcd, heq, hck⟩
      · rcases List.mem_append.mp h2 with h3 | h3
        · exact Or.inl h3
        · refine Or.inr ⟨cand, List.mem_cons_self _ _, (List.mem_singleton.mp h3), ?_⟩
          have hchecks := hacc
          simp only [Bool.and_eq_true] at hchecks
          exact hchecks.1
      · exact Or.inr ⟨cd, List.mem_cons_of_mem _ hcd, heq, hck⟩
    · rw [if_neg hacc] at h
      rcases selectGo_mem_selected h with h2 | ⟨cd, hcd, heq, hck⟩
      · exact Or.inl h2
      · exact Or.inr ⟨cd, List.mem_cons_of_mem _ hcd, heq, hck⟩

/-- Every colour the loop emits was already emitted, or is the colour of a
candidate from the input list. -/
lemma selectGo_mem_colors {cell md : ℚ} {center : V3} {r bminY bsizeY : ℚ}
    {s c : ℚ → ℚ} {target : ℕ} :
    ∀ {l : List Cand} {st : SelState} {col : JVal × JVal × JVal},
      col ∈ (selectGo cell md center r bminY bsizeY s c target l st).colors →
      col ∈ st.colors ∨ ∃ cd ∈ l, col = colorOf bminY bsizeY s c cd.1
  | [], st, col => fun h => Or.inl h
  | cand :: rest, st, col => by
    intro h
    rw [selectGo] at h
    by_cases hb : target ≤ st.selected.length
    · rw [if_pos hb] at h
      exact Or.inl h
    rw [if_neg hb] at h
    by_cases hacc : isPointInValidRegion center r cand.1 &&
        isValidDistance cell md st.hash cand.1
    · rw [if_pos hacc] at h
      rcases selectGo_mem_colors h with h2 | ⟨cd, hcd, heq⟩
      · rcases List.mem_append.mp h2 with h3 | h3
        · exact Or.inl h3
        · exact Or.inr ⟨cand, List.mem_cons_self _ _, List.mem_singleton.mp h3⟩
      · exact Or.inr ⟨cd, List.mem_cons_of_mem _ hcd, heq⟩
    · rw [if_neg hacc] at h
      rcases selectGo_mem_colors h with h2 | ⟨cd, hcd, heq⟩
      · exact Or.inl h2
      · exact Or.inr ⟨cd, List.mem_cons_of_mem _ hcd, heq⟩

/-- The loop keeps positions and colours aligned and never exceeds the
target count. -/
lemma selectGo_counts {cell md : ℚ} {center : V3} {r bminY bsizeY : ℚ}
    {s c : ℚ → ℚ} {target : ℕ} :
    ∀ {l : List Cand} {st : SelState},
      st.selected.length = st.colors.length → st.selected.length ≤ target →
      (selectGo cell md center r bminY bsizeY s c target l st).selected.length =
        (selectGo cell md center r bminY bsizeY s c target l st).colors.length ∧
      (selectGo cell md center r bminY bsizeY s c target l st).selected.length ≤ target
  | [], st => fun h1 h2 => ⟨h1, h2⟩
  | cand :: rest, st => by
    intro h1 h2
    rw [selectGo]
    by_cases hb : target ≤ st.selected.length
    · rw [if_pos hb]
      exact ⟨h1, h2⟩
    rw [if_neg hb]
    by_cases hacc : isPointInValidRegion center r cand.1 &&
        isValidDistance cell md st.hash cand.1
    · rw [if_pos hacc]
      refine selectGo_counts ?_ ?_
      · simp [h1]
      · simp only [List.length_append, List.length_singleton]
        omega
    · rw [if_neg hacc]
      exact selectGo_counts h1 h2

/-! ### Bounding-box fold lemmas -/

lemma foldl_min_le_init : ∀ (l : List ℚ) (a : ℚ), l.foldl min a ≤ a
  | [], _ => le_refl _
  | b :: r, a => le_trans (foldl_min_le_init r (min a b)) (min_le_left a b)

lemma foldl_min_le_mem : ∀ {l : List ℚ} {x : ℚ} (a : ℚ), x ∈ l → l.foldl min a ≤ x := by
  intro l
  induction l with
  | nil => intro x a h; simp at h
  | cons b r ih =>
    intro x a h
    rcases List.mem_cons.mp h with h | h
    · subst h
      exact le_trans (foldl_min_le_init r (min a x)) (min_le_right a x)
    · exact ih (min a b) h

lemma le_foldl_max_init : ∀ (l : List ℚ) (a : ℚ), a ≤ l.foldl max a
  | [], _ => le_refl _
  | b :: r, a => le_trans (le_max_left a b) (le_foldl_max_init r (max a b))

lemma le_foldl_max_mem : ∀ {l : List ℚ} {x : ℚ} (a : ℚ), x ∈ l → x ≤ l.foldl max a := by
  intro l
  induction l with
  | nil => intro x a h; simp at h
  | cons b r ih =>
    intro x a h
    rcases List.mem_cons.mp h with h | h
    · subst h
      exact le_trans (le_max_right a x) (le_foldl_max_init r (max a x))
    · exact ih (max a b) h

lemma foldMinQ_le_mem {l : List ℚ} {x : ℚ} (h : x ∈ l) : foldMinQ l ≤ x := by
  cases l with
  | nil => simp at h
  | cons a r =>
    rcases List.mem_cons.mp h with h | h
    · subst h; exact foldl_min_le_init r x
    · exact foldl_min_le_mem a h

lemma le_foldMaxQ_mem {l : List ℚ} {x : ℚ} (h : x ∈ l) : x ≤ foldMaxQ l := by
  cases l with
  | nil => simp at h
  | cons a r =>
    rcases List.mem_cons.mp h with h | h
    · subst h; exact le_foldl_max_init r x
    · exact le_foldl_max_mem a h

lemma foldMinQ_le_foldMaxQ {l : List ℚ} (h : l ≠ []) : foldMinQ l ≤ foldMaxQ l := by
  cases l with
  | nil => exact absurd rfl h
  | cons a r =>
    exact le_trans (foldMinQ_le_mem (List.mem_cons_self a r))
      (le_foldMaxQ_mem (List.mem_cons_self a r))

lemma mem_faceVerts_of_mem {faces : List Tri} {t : Tri} (h : t ∈ faces) :
    t.1 ∈ faceVerts faces := by
  induction faces with
  | nil => simp at h
  | cons a r ih =>
    rcases List.mem_cons.mp h with h | h
    · subst h; exact List.mem_cons_self _ _
    · simp only [faceVerts, List.foldr_cons]
      exact List.mem_cons_of_mem _ (List.mem_cons_of_mem _ (List.mem_cons_of_mem _ (ih h)))

lemma mem_faceVerts_snd_of_mem {faces : List Tri} {t : Tri} (h : t ∈ faces) :
    t.2.1 ∈ faceVerts faces := by
  induction faces with
  | nil => simp at h
  | cons a r ih =>
    rcases List.mem_cons.mp h with h | h
    · subst h
      exact List.mem_cons_of_mem _ (List.mem_cons_self _ _)
    · simp only [faceVerts, List.foldr_cons]
      exact List.mem_cons_of_mem _ (List.mem_cons_of_mem _ (List.mem_cons_of_mem _ (ih h)))

lemma mem_faceVerts_thd_of_mem {faces : List Tri} {t : Tri} (h : t ∈ faces) :
    t.2.2 ∈ faceVerts faces := by
  induction faces with
  | nil => simp at h
  | cons a r ih =>
    rcases List.mem_cons.mp h with h | h
    · subst h
      exact List.mem_cons_of_mem _ (List.mem_cons_of_mem _ (List.mem_cons_self _ _))
    · simp only [faceVerts, List.foldr_cons]
      exact List.mem_cons_of_mem _ (List.mem_cons_of_mem _ (List.mem_cons_of_mem _ (ih h)))

/-- With at least one face, each bounding-box extent is nonnegative and so
is the hollow radius. -/
lemma hollowRadius_nonneg {sq : ℚ → ℚ} {vs : List ℚ}
    (h : (defineShapeBoundary sq vs).faces ≠ []) :
    0 ≤ (defineShapeBoundary sq vs).hollowRadius := by
  have hv : faceVerts (facesOf vs) ≠ [] := by
    cases hf : facesOf vs with
    | nil => exact absurd hf h
    | cons a r =>
      simp [faceVerts]
  have hmap : (faceVerts (facesOf vs)).map V3.x ≠ [] := by
    simpa using hv
  have hx : foldMinQ ((faceVerts (facesOf vs)).map V3.x) ≤
      foldMaxQ ((faceVerts (facesOf vs)).map V3.x) := foldMinQ_le_foldMaxQ hmap
  show 0 ≤ max (max _ _) _ * (2 / 10)
  have h1 : (0 : ℚ) ≤ foldMaxQ ((faceVerts (facesOf vs)).map V3.x) -
      foldMinQ ((faceVerts (facesOf vs)).map V3.x) := by linarith
  have h2 : (0 : ℚ) ≤ max (max (foldMaxQ ((faceVerts (facesOf vs)).map V3.x) -
      foldMinQ ((faceVerts (facesOf vs)).map V3.x))
      (foldMaxQ ((faceVerts (facesOf vs)).map V3.y) -
        foldMinQ ((faceVerts (facesOf vs)).map V3.y)))
      (foldMaxQ ((faceVerts (facesOf vs)).map V3.z) -
        foldMinQ ((faceVerts (facesOf vs)).map V3.z)) :=
    le_trans h1 (le_trans (le_max_left _ _) (le_max_left _ _))
  exact mul_nonneg h2 (by norm_num)

/-! ### Candidate-origin lemmas -/

/-- Every candidate in a face grid is a barycentric combination of the
face's vertices with nonnegative weights summing to 1, tagged with the
face's index. -/
lemma mem_faceGrid {t : Tri} {fi spe : ℕ} {cd : Cand} (h : cd ∈ faceGrid t fi spe) :
    ∃ u v w : ℚ, 0 ≤ u ∧ 0 ≤ v ∧ 0 ≤ w ∧ u + v + w = 1 ∧ cd = (baryPoint t u v w, fi) := by
  rcases mem_joinMap.mp h with ⟨i, _, hin⟩
  rcases List.mem_filterMap.mp hin with ⟨j, _, hj⟩
  by_cases hw : (0 : ℚ) ≤ 1 - (i : ℚ) / (spe : ℚ) - (j : ℚ) / (spe : ℚ)
  · rw [if_pos hw] at hj
    refine ⟨(i : ℚ) / (spe : ℚ), (j : ℚ) / (spe : ℚ),
      1 - (i : ℚ) / (spe : ℚ) - (j : ℚ) / (spe : ℚ), ?_, ?_, hw, by ring, ?_⟩
    · exact div_nonneg (Nat.cast_nonneg i) (Nat.cast_nonneg spe)
    · exact div_nonneg (Nat.cast_nonneg j) (Nat.cast_nonneg spe)
    · exact (Option.some_injective _ hj).symm
  · rw [if_neg hw] at hj
    exact absurd hj (by simp)

/-- Every generated candidate's point is a barycentric combination of some
face of the boundary. -/
lemma mem_genCandidates {sb : ShapeBoundary} {target : ℕ} {cd : Cand}
    (h : cd ∈ genCandidates sb target) :
    ∃ t ∈ sb.faces, ∃ u v w : ℚ,
      0 ≤ u ∧ 0 ≤ v ∧ 0 ≤ w ∧ u + v + w = 1 ∧ cd.1 = baryPoint t u v w := by
  unfold genCandidates at h
  by_cases hta : sb.totalArea = 0
  · rw [if_pos hta] at h
    simp at h
  rw [if_neg hta] at h
  rcases mem_joinMap.mp (mem_of_mem_take h) with ⟨p, hp, hcd⟩
  have hzip : p.2 ∈ sb.faces.zip sb.faceAreas := mem_withIdx hp
  have hface : p.2.1 ∈ sb.faces := (List.of_mem_zip hzip).1
  rcases mem_faceGrid hcd with ⟨u, v, w, hu, hv, hw, hsum, heq⟩
  exact ⟨p.2.1, hface, u, v, w, hu, hv, hw, hsum, by rw [heq]⟩

/-- A generated candidate forces the face list to be nonempty. -/
lemma faces_ne_nil_of_mem_genCandidates {sb : ShapeBoundary} {target : ℕ} {cd : Cand}
    (h : cd ∈ genCandidates sb target) : sb.faces ≠ [] := by
  rcases mem_genCandidates h with ⟨t, ht, _⟩
  exact List.ne_nil_of_mem ht

/-! ### Minimum-distance machinery (C3) -/

lemma dist2_comm (a b : V3) : dist2 a b = dist2 b a := by
  unfold dist2; ring

lemma abs_lt_of_sq_lt_sq {a m : ℚ} (h : a ^ 2 < m ^ 2) (hm : 0 < m) : |a| < m := by
  by_contra hc
  push_neg at hc
  nlinarith [sq_abs a, abs_nonneg a]

/-- Each coordinate difference of two points closer than `m` is smaller
than `m` in absolute value. -/
lemma abs_coords_lt_of_dist2_lt {p q : V3} {m : ℚ} (hm : 0 < m) (h : dist2 p q < m ^ 2) :
    |p.x - q.x| < m ∧ |p.y - q.y| < m ∧ |p.z - q.z| < m := by
  unfold dist2 at h
  refine ⟨abs_lt_of_sq_lt_sq ?_ hm, abs_lt_of_sq_lt_sq ?_ hm, abs_lt_of_sq_lt_sq ?_ hm⟩
  · nlinarith [sq_nonneg (p.y - q.y), sq_nonneg (p.z - q.z)]
  · nlinarith [sq_nonneg (p.x - q.x), sq_nonneg (p.z - q.z)]
  · nlinarith [sq_nonneg (p.x - q.x), sq_nonneg (p.y - q.y)]

/-- Coordinates closer than the cell size land in the same or an adjacent
cell: their floored cell indices differ by at most one. -/
lemma floor_div_diff_le_one {a b m : ℚ} (hm : 0 < m) (h : |a - b| < m) :
    -1 ≤ ⌊a / m⌋ - ⌊b / m⌋ ∧ ⌊a / m⌋ - ⌊b / m⌋ ≤ 1 := by
  rcases abs_lt.mp h with ⟨h1, h2⟩
  have ha : a / m < b / m + 1 := by
    have : a / m - b / m < 1 := by
      rw [div_sub_div_same]
      exact (div_lt_one hm).mpr h2
    linarith
  have hb : b / m < a / m + 1 := by
    have : b / m - a / m < 1 := by
      rw [div_sub_div_same]
      exact (div_lt_one hm).mpr (by linarith)
    linarith
  have hfa : ⌊a / m⌋ ≤ ⌊b / m⌋ + 1 := by
    have := Int.floor_le_floor (le_of_lt ha)
    rwa [Int.floor_add_one] at this
  have hfb : ⌊b / m⌋ ≤ ⌊a / m⌋ + 1 := by
    have := Int.floor_le_floor (le_of_lt hb)
    rwa [Int.floor_add_one] at this
  omega

/-- Any offset triple with components in `[-1, 1]` is one of the 27 cell
offsets the check visits. -/
lemma mem_neighborOffsets {a b e : ℤ} (ha1 : -1 ≤ a) (ha2 : a ≤ 1) (hb1 : -1 ≤ b)
    (hb2 : b ≤ 1) (he1 : -1 ≤ e) (he2 : e ≤ 1) : (a, b, e) ∈ neighborOffsets := by
  interval_cases a <;> interval_cases b <;> interval_cases e <;> decide

/-- The hash-completeness invariant of the acceptance loop: every selected
point is present in its own cell's bucket. -/
def HashContains (cell : ℚ) (h : Key → List V3) (sel : List V3) : Prop :=
  ∀ q ∈ sel, q ∈ h (getHashKey cell q)

/-- Soundness of the 27-cell neighborhood query when `cellSize` equals the
query radius: if the hash contains every selected point and the query
reports no conflict, the candidate really is at least `minDistance` from
every selected point (no false negative). -/
lemma isValidDistance_far {md : ℚ} (hmd : 0 < md) {h : Key → List V3} {sel : List V3}
    (hinv : HashContains md h sel) {p : V3}
    (hvd : isValidDistance md md h p = true) :
    ∀ q ∈ sel, md ^ 2 ≤ dist2 p q := by
  intro q hq
  by_contra hc
  push_neg at hc
  obtain ⟨hx, hy, hz⟩ := abs_coords_lt_of_dist2_lt hmd hc
  have hx' : |q.x - p.x| < md := by rwa [abs_sub_comm] at hx
  have hy' : |q.y - p.y| < md := by rwa [abs_sub_comm] at hy
  have hz' : |q.z - p.z| < md := by rwa [abs_sub_comm] at hz
  have hdx := floor_div_diff_le_one hmd hx'
  have hdy := floor_div_diff_le_one hmd hy'
  have hdz := floor_div_diff_le_one hmd hz'
  have hmemo : (⌊q.x / md⌋ - ⌊p.x / md⌋, ⌊q.y / md⌋ - ⌊p.y / md⌋,
      ⌊q.z / md⌋ - ⌊p.z / md⌋) ∈ neighborOffsets :=
    mem_neighborOffsets hdx.1 hdx.2 hdy.1 hdy.2 hdz.1 hdz.2
  unfold isValidDistance at hvd
  rw [List.all_eq_true] at hvd
  have h1 := hvd _ hmemo
  simp only [] at h1
  rw [List.all_eq_true] at h1
  have hkey : (⌊p.x / md⌋ + (⌊q.x / md⌋ - ⌊p.x / md⌋),
      ⌊p.y / md⌋ + (⌊q.y / md⌋ - ⌊p.y / md⌋),
      ⌊p.z / md⌋ + (⌊q.z / md⌋ - ⌊p.z / md⌋)) = getHashKey md q := by
    unfold getHashKey
    have e1 : ⌊p.x / md⌋ + (⌊q.x / md⌋ - ⌊p.x / md⌋) = ⌊q.x / md⌋ := by ring
    have e2 : ⌊p.y / md⌋ + (⌊q.y / md⌋ - ⌊p.y / md⌋) = ⌊q.y / md⌋ := by ring
    have e3 : ⌊p.z / md⌋ + (⌊q.z / md⌋ - ⌊p.z / md⌋) = ⌊q.z / md⌋ := by ring
    rw [e1, e2, e3]
  have hqmem : q ∈ h (⌊p.x / md⌋ + (⌊q.x / md⌋ - ⌊p.x / md⌋),
      ⌊p.y / md⌋ + (⌊q.y / md⌋ - ⌊p.y / md⌋),
      ⌊p.z / md⌋ + (⌊q.z / md⌋ - ⌊p.z / md⌋)) := by
    rw [hkey]
    exact hinv q hq
  have h2 := h1 q hqmem
  simp only [Bool.not_eq_true', decide_eq_false_iff_not] at h2
  exact h2 hc

/-- The acceptance loop preserves hash completeness and pairwise
separation by at least `minDistance` (squared form). -/
lemma selectGo_pairwise {md : ℚ} (hmd : 0 < md) {center : V3} {r bminY bsizeY : ℚ}
    {s c : ℚ → ℚ} {target : ℕ} :
    ∀ {l : List Cand} {st : SelState},
      HashContains md st.hash st.selected →
      List.Pairwise (fun a b => md ^ 2 ≤ dist2 a b) st.selected →
      HashContains md (selectGo md md center r bminY bsizeY s c target l st).hash
          (selectGo md md center r bminY bsizeY s c target l st).selected ∧
        List.Pairwise (fun a b => md ^ 2 ≤ dist2 a b)
          (selectGo md md center r bminY bsizeY s c target l st).selected
  | [], st => fun h1 h2 => ⟨h1, h2⟩
  | cand :: rest, st => by
    intro h1 h2
    rw [selectGo]
    by_cases hb : target ≤ st.selected.length
    · rw [if_pos hb]
      exact ⟨h1, h2⟩
    rw [if_neg hb]
    by_cases hacc : isPointInValidRegion center r cand.1 &&
        isValidDistance md md st.hash cand.1
    · rw [if_pos hacc]
      have hvd : isValidDistance md md st.hash cand.1 = true := by
        have := hacc
        simp only [Bool.and_eq_true] at this
        exact this.2
      have hfar : ∀ q ∈ st.selected, md ^ 2 ≤ dist2 cand.1 q :=
        isValidDistance_far hmd h1 hvd
      refine selectGo_pairwise hmd ?_ ?_
      · intro q hq
        rcases List.mem_append.mp hq with hql | hqr
        · have hold := h1 q hql
          show q ∈ addToSpatialHash md st.hash cand.1 (getHashKey md q)
          unfold addToSpatialHash
          by_cases hk : getHashKey md q = getHashKey md cand.1
          · rw [if_pos hk]
            exact List.mem_cons_of_mem _ hold
          · rw [if_neg hk]
            exact hold
        · have hq1 : q = cand.1 := List.mem_singleton.mp hqr
          show q ∈ addToSpatialHash md st.hash cand.1 (getHashKey md q)
          unfold addToSpatialHash
          rw [hq1, if_pos rfl]
          exact List.mem_cons_self _ _
      · rw [List.pairwise_append]
        refine ⟨h2, List.pairwise_singleton _ _, ?_⟩
        intro a ha b hbm
        have hb1 : b = cand.1 := List.mem_singleton.mp hbm
        subst hb1
        rw [dist2_comm]
        exact hfar a ha
    · rw [if_neg hacc]
      exact selectGo_pairwise hmd h1 h2

/-! ### Claim theorems: counts, hollow region, surface membership -/

/-- C5: for every input boundary and every target count, the sampler's two
output sequences are aligned — the number of emitted positions equals the
number of emitted colours — and that common count is at most
`targetCount`. -/
theorem claim_count_bound (sq s c : ℚ → ℚ) (shuffle : List Cand → List Cand)
    (verts : List ℚ) (target : ℕ) :
    (createSparsePointCloud sq s c shuffle verts target).points.length =
      (createSparsePointCloud sq s c shuffle verts target).colors.length ∧
    (createSparsePointCloud sq s c shuffle verts target).points.length ≤ target := by
  unfold createSparsePointCloud generatePointsInShape
  exact selectGo_counts rfl (Nat.zero_le _)

/-- C4: every accepted output point lies strictly outside the hollow
region — its squared distance to the bounding-box center strictly exceeds
`hollowRadius ^ 2`, and `hollowRadius` (0.2 × the maximum bounding-box
extent) is nonnegative, so the Euclidean distance strictly exceeds
`hollowRadius`. -/
theorem claim_hollow_invariant (sq s c : ℚ → ℚ) (shuffle : List Cand → List Cand)
    (verts : List ℚ) (target : ℕ) (hsh : ∀ l, (shuffle l).Perm l) :
    ∀ p ∈ (createSparsePointCloud sq s c shuffle verts target).points,
      0 ≤ (defineShapeBoundary sq verts).hollowRadius ∧
      (defineShapeBoundary sq verts).hollowRadius ^ 2 <
        dist2 p (defineShapeBoundary sq verts).objectCenter := by
  intro p hp
  unfold createSparsePointCloud generatePointsInShape at hp
  rcases selectGo_mem_selected hp with h | ⟨cd, hcd, heq, hck⟩
  · simp at h
  have hcand : cd ∈ genCandidates (defineShapeBoundary sq verts) target :=
    ((hsh _).mem_iff).mp hcd
  have hfaces : (defineShapeBoundary sq verts).faces ≠ [] :=
    faces_ne_nil_of_mem_genCandidates hcand
  refine ⟨hollowRadius_nonneg hfaces, ?_⟩
  have := of_decide_eq_true hck
  rw [heq]
  exact this

/-- C3: for every pipeline run on a boundary with positive total area and
a positive target count (so that `minDistance = sqrt(totalArea / target) ×
0.8 × 0.7` is positive), every pair of distinct accepted output points is
separated by at least `minDistance` (stated in squared form): the 3×3×3
neighborhood check with `cellSize = minDistance` produces no false
negative. -/
theorem claim_min_distance_invariant (sq s c : ℚ → ℚ) (shuffle : List Cand → List Cand)
    (verts : List ℚ) (target : ℕ)
    (htot : 0 < (defineShapeBoundary sq verts).totalArea) (htarget : 1 ≤ target)
    (hsq : 0 < sq ((defineShapeBoundary sq verts).totalArea / (target : ℚ))) :
    List.Pairwise
      (fun p q =>
        minDistanceOf sq (defineShapeBoundary sq verts).totalArea target ^ 2 ≤ dist2 p q)
      (createSparsePointCloud sq s c shuffle verts target).points := by
  have hmd : 0 < minDistanceOf sq (defineShapeBoundary sq verts).totalArea target := by
    unfold minDistanceOf
    have h1 : 0 < sq ((defineShapeBoundary sq verts).totalArea / (target : ℚ)) * (8 / 10) :=
      mul_pos hsq (by norm_num)
    exact mul_pos h1 (by norm_num)
  unfold createSparsePointCloud generatePointsInShape
  refine (selectGo_pairwise hmd ?_ ?_).2
  · intro q hq
    simp at hq
  · exact List.Pairwise.nil

/-- C10: every accepted output position lies on the input surface — it is
a barycentric combination `u·v1 + v·v2 + w·v3` of the vertices of some
input face, with `u, v, w ≥ 0` and `u + v + w = 1`. -/
theorem claim_surface_membership (sq s c : ℚ → ℚ) (shuffle : List Cand → List Cand)
    (verts : List ℚ) (target : ℕ) (hsh : ∀ l, (shuffle l).Perm l) :
    ∀ p ∈ (createSparsePointCloud sq s c shuffle verts target).points,
      ∃ t ∈ (defineShapeBoundary sq verts).faces, ∃ u v w : ℚ,
        0 ≤ u ∧ 0 ≤ v ∧ 0 ≤ w ∧ u + v + w = 1 ∧ p = baryPoint t u v w := by
  intro p hp
  unfold createSparsePointCloud generatePointsInShape at hp
  rcases selectGo_mem_selected hp with h | ⟨cd, hcd, heq, _⟩
  · simp at h
  have hcand : cd ∈ genCandidates (defineShapeBoundary sq verts) target :=
    ((hsh _).mem_iff).mp hcd
  rcases mem_genCandidates hcand with ⟨t, ht, u, v, w, hu, hv, hw, hsum, hpt⟩
  exact ⟨t, ht, u, v, w, hu, hv, hw, hsum, by rw [heq, hpt]⟩

/-! ### Colour-path lemmas -/

/-- Every colour the sampler can produce is either the blue-shifted scale
of a clamped intensity in `[0.3, 1]`, or the all-NaN triple (which arises
exactly from the unguarded division by a zero `y` extent). -/
lemma colorOf_cases (bminY bsizeY : ℚ) (s c : ℚ → ℚ) (p : V3) :
    (∃ i : ℚ, 3 / 10 ≤ i ∧ i ≤ 1 ∧
        colorOf bminY bsizeY s c p =
          (.num (i * (9 / 10)), .num (i * 1), .num (i * (12 / 10)))) ∨
      colorOf bminY bsizeY s c p = (.nan, .nan, .nan) := by
  unfold colorOf
  by_cases hb : bsizeY = 0
  · by_cases ha : p.y - bminY = 0
    · right
      simp [jdiv, hb, ha, jmul, jadd, jmin, jmax]
    · rcases lt_or_gt_of_ne ha with hlt | hgt
      · left
        refine ⟨3 / 10, le_refl _, by norm_num, ?_⟩
        have hdiv : jdiv (.num (p.y - bminY)) (.num bsizeY) = .ninf := by
          simp [jdiv, hb, ha, not_lt.mpr (le_of_lt hlt)]
        rw [hdiv]
        simp [jmul, jadd, jmin, jmax]
      · left
        refine ⟨max (3 / 10) 1, le_max_left _ _, by norm_num, ?_⟩
        have hdiv : jdiv (.num (p.y - bminY)) (.num bsizeY) = .inf := by
          simp [jdiv, hb, ha, hgt]
        rw [hdiv]
        simp [jmul, jadd, jmin, jmax]
  · left
    have hdiv : jdiv (.num (p.y - bminY)) (.num bsizeY) = .num ((p.y - bminY) / bsizeY) := by
      simp [jdiv, hb]
    rw [hdiv]
    refine ⟨max (3 / 10) (min 1 ((6 / 10) + (p.y - bminY) / bsizeY * (4 / 10) +
      (s (p.x * 10) + c (p.z * 10)) * (1 / 10))), le_max_left _ _, ?_, ?_⟩
    · exact max_le (by norm_num) (min_le_left _ _)
    · simp [jmul, jadd, jmin, jmax]

/-- The unguarded height division: a flat-in-`y` box together with a point
at the box's `y` level makes every colour component NaN. -/
lemma colorOf_nan {bminY bsizeY : ℚ} (hb : bsizeY = 0) {p : V3} (hy : p.y = bminY)
    (s c : ℚ → ℚ) : colorOf bminY bsizeY s c p = (.nan, .nan, .nan) := by
  unfold colorOf
  rw [hb, hy]
  simp [jdiv, jmul, jadd, jmin, jmax]

/-- If the bounding box is flat in `y`, the `y` coordinate of every vertex
of every face equals the box minimum. -/
lemma face_ys_eq_of_flat {sq : ℚ → ℚ} {vs : List ℚ}
    (h : (defineShapeBoundary sq vs).boundingBox.size.y = 0) :
    ∀ t ∈ (defineShapeBoundary sq vs).faces,
      t.1.y = (defineShapeBoundary sq vs).boundingBox.min.y ∧
      t.2.1.y = (defineShapeBoundary sq vs).boundingBox.min.y ∧
      t.2.2.y = (defineShapeBoundary sq vs).boundingBox.min.y := by
  intro t ht
  have hminmax : foldMaxQ ((faceVerts (facesOf vs)).map V3.y) =
      foldMinQ ((faceVerts (facesOf vs)).map V3.y) := by
    have hd : foldMaxQ ((faceVerts (facesOf vs)).map V3.y) -
        foldMinQ ((faceVerts (facesOf vs)).map V3.y) = 0 := h
    linarith
  have hbound : ∀ v : V3, v ∈ faceVerts (facesOf vs) →
      v.y = foldMinQ ((faceVerts (facesOf vs)).map V3.y) := by
    intro v hv
    have hmem : v.y ∈ (faceVerts (facesOf vs)).map V3.y := List.mem_map_of_mem _ hv
    have h1 := foldMinQ_le_mem hmem
    have h2 := le_foldMaxQ_mem hmem
    rw [hminmax] at h2
    linarith
  have htf : t ∈ facesOf vs := ht
  refine ⟨hbound _ ?_, hbound _ ?_, hbound _ ?_⟩
  · exact mem_faceVerts_of_mem htf
  · exact mem_faceVerts_snd_of_mem htf
  · exact mem_faceVerts_thd_of_mem htf

/-- Helper for C2: on a flat-in-`y` mesh, every generated candidate point
sits at the box's minimum `y` level. -/
lemma candidate_y_eq_of_flat {sq : ℚ → ℚ} {vs : List ℚ} {target : ℕ} {cd : Cand}
    (hflat : (defineShapeBoundary sq vs).boundingBox.size.y = 0)
    (hcd : cd ∈ genCandidates (defineShapeBoundary sq vs) target) :
    cd.1.y = (defineShapeBoundary sq vs).boundingBox.min.y := by
  rcases mem_genCandidates hcd with ⟨t, ht, u, v, w, _, _, _, hsum, hpt⟩
  obtain ⟨h1, h2, h3⟩ := face_ys_eq_of_flat hflat t ht
  have hy : cd.1.y = u * t.1.y + v * t.2.1.y + w * t.2.2.y := by
    rw [hpt]; rfl
  rw [hy, h1, h2, h3]
  have : u * (defineShapeBoundary sq vs).boundingBox.min.y +
      v * (defineShapeBoundary sq vs).boundingBox.min.y +
      w * (defineShapeBoundary sq vs).boundingBox.min.y =
      (u + v + w) * (defineShapeBoundary sq vs).boundingBox.min.y := by ring
  rw [this, hsum, one_mul]

/-- C2 (amended): the height normalisation `h = (y − boxMin.y) / boxSize.y`
carries no guard in the source; when the bounding box's `y` extent is zero
the division is `0 / 0 = NaN` and every colour component of every emitted
colour is NaN. -/
theorem claim_flat_y_colors_nan (sq s c : ℚ → ℚ) (shuffle : List Cand → List Cand)
    (verts : List ℚ) (target : ℕ) (hsh : ∀ l, (shuffle l).Perm l)
    (hflat : (defineShapeBoundary sq verts).boundingBox.size.y = 0) :
    ∀ col ∈ (createSparsePointCloud sq s c shuffle verts target).colors,
      col = (.nan, .nan, .nan) := by
  intro col hcol
  unfold createSparsePointCloud generatePointsInShape at hcol
  rcases selectGo_mem_colors hcol with h | ⟨cd, hcd, heq⟩
  · simp at h
  have hcand : cd ∈ genCandidates (defineShapeBoundary sq verts) target :=
    ((hsh _).mem_iff).mp hcd
  have hy := candidate_y_eq_of_flat hflat hcand
  rw [heq]
  exact colorOf_nan hflat hy s c

/-- C6 (amended): every emitted colour is the blue-shifted scale
`(0.9 i, 1.0 i, 1.2 i)` of a clamped intensity `i ∈ [0.3, 1]` — so the red
and green components lie in `[0, 1]` but the blue component ranges up to
`1.2` — or, for a mesh flat in `y`, the all-NaN triple. -/
theorem claim_color_range (sq s c : ℚ → ℚ) (shuffle : List Cand → List Cand)
    (verts : List ℚ) (target : ℕ) :
    ∀ col ∈ (createSparsePointCloud sq s c shuffle verts target).colors,
      (∃ i : ℚ, 3 / 10 ≤ i ∧ i ≤ 1 ∧
        col = (.num (i * (9 / 10)), .num (i * 1), .num (i * (12 / 10))) ∧
        0 ≤ i * (9 / 10) ∧ i * (9 / 10) ≤ 1 ∧ 0 ≤ i * 1 ∧ i * 1 ≤ 1 ∧
        0 ≤ i * (12 / 10) ∧ i * (12 / 10) ≤ 12 / 10) ∨
      col = (.nan, .nan, .nan) := by
  intro col hcol
  unfold createSparsePointCloud generatePointsInShape at hcol
  rcases selectGo_mem_colors hcol with h | ⟨cd, _, heq⟩
  · simp at h
  rcases colorOf_cases (defineShapeBoundary sq verts).boundingBox.min.y
      (defineShapeBoundary sq verts).boundingBox.size.y s c cd.1 with ⟨i, h1, h2, h3⟩ | h3
  · left
    refine ⟨i, h1, h2, by rw [heq, h3], ?_, ?_, ?_, ?_, ?_, ?_⟩ <;> nlinarith
  · right
    rw [heq, h3]

/-- The nine flat coordinates of a single triangle, as the decoder hands
them to the analyzer. -/
def triVerts (v1 v2 v3 : V3) : List ℚ :=
  [v1.x, v1.y, v1.z, v2.x, v2.y, v2.z, v3.x, v3.y, v3.z]

/-- A nine-coordinate buffer parses into exactly its one triangle. -/
lemma facesOf_triVerts (v1 v2 v3 : V3) : facesOf (triVerts v1 v2 v3) = [(v1, v2, v3)] := by
  unfold facesOf
  rw [show ((triVerts v1 v2 v3).length + 8) / 9 = 1 by norm_num [triVerts],
    show List.range 1 = [0] from rfl]
  simp [triVerts, vget]

/-- C8: a single degenerate (zero cross product, hence zero-area) triangle
as sole input yields `totalArea = 0` and empty position and colour outputs
(`Math.sqrt 0 = 0` is the only property of the square root used). -/
theorem claim_degenerate_triangle (sq s c : ℚ → ℚ) (shuffle : List Cand → List Cand)
    (v1 v2 v3 : V3) (target : ℕ) (hdeg : crossMagSq (v1, v2, v3) = 0) (hsq0 : sq 0 = 0)
    (hsh : ∀ l, (shuffle l).Perm l) :
    (defineShapeBoundary sq (triVerts v1 v2 v3)).totalArea = 0 ∧
    (createSparsePointCloud sq s c shuffle (triVerts v1 v2 v3) target).points = [] ∧
    (createSparsePointCloud sq s c shuffle (triVerts v1 v2 v3) target).colors = [] := by
  have hfaces : facesOf (triVerts v1 v2 v3) = [(v1, v2, v3)] := facesOf_triVerts v1 v2 v3
  have harea : (defineShapeBoundary sq (triVerts v1 v2 v3)).totalArea = 0 := by
    show ((facesOf (triVerts v1 v2 v3)).map
      (fun t => sq (crossMagSq t) * (1 / 2))).foldl (fun a b => a + b) 0 = 0
    rw [hfaces]
    simp [hdeg, hsq0]
  have hcands : genCandidates (defineShapeBoundary sq (triVerts v1 v2 v3)) target = [] := by
    unfold genCandidates
    rw [if_pos harea]
  have hshuf : shuffle (genCandidates (defineShapeBoundary sq (triVerts v1 v2 v3)) target)
      = [] := List.Perm.eq_nil (hcands ▸ hsh _)
  refine ⟨harea, ?_, ?_⟩
  · unfold createSparsePointCloud generatePointsInShape
    rw [hshuf]
    rfl
  · unfold createSparsePointCloud generatePointsInShape
    rw [hshuf]
    rfl

/-! ### Binary decoder lemmas (C1, C9) -/

@[simp] lemma ebind_ok {ε α β : Type} (a : α) (f : α → Except ε β) :
    (Except.ok a >>= f) = f a := rfl

@[simp] lemma ebind_error {ε α β : Type} (e : ε) (f : α → Except ε β) :
    ((Except.error e : Except ε α) >>= f) = Except.error e := rfl

@[simp] lemma emap_ok {ε α β : Type} (f : α → β) (a : α) :
    Except.map f (Except.ok a : Except ε α) = Except.ok (f a) := rfl

@[simp] lemma emap_error {ε α β : Type} (f : α → β) (e : ε) :
    Except.map f (Except.error e : Except ε α) = Except.error e := rfl

lemma readWords_rangeError {buf : List ℕ} :
    ∀ (k off : ℕ), 1 ≤ k → buf.length < off + 4 * k →
      readWords buf off k = .error .rangeError
  | 0, _, hk, _ => absurd hk (by omega)
  | k + 1, off, _, hlen => by
    by_cases h4 : off + 4 ≤ buf.length
    · have hk1 : 1 ≤ k := by omega
      have hrec := @readWords_rangeError buf k (off + 4) hk1 (by omega)
      simp [readWords, getWordLE, if_pos h4, hrec]
    · simp [readWords, getWordLE, if_neg h4]

lemma readWords_ok {buf : List ℕ} :
    ∀ (k off : ℕ), off + 4 * k ≤ buf.length → ∃ ws, readWords buf off k = .ok ws
  | 0, _, _ => ⟨[], rfl⟩
  | k + 1, off, hlen => by
    have h4 : off + 4 ≤ buf.length := by omega
    obtain ⟨ws, hws⟩ := @readWords_ok buf k (off + 4) (by omega)
    exact ⟨(buf.getD off 0 + 256 * buf.getD (off + 1) 0 + 65536 * buf.getD (off + 2) 0 +
      16777216 * buf.getD (off + 3) 0) :: ws,
      by simp [readWords, getWordLE, if_pos h4, hws]⟩

lemma parseBinRecords_rangeError {buf : List ℕ} :
    ∀ (n off : ℕ), 1 ≤ n → buf.length + 2 < off + 50 * n →
      parseBinRecords buf n off = .error .rangeError
  | 0, _, hn, _ => absurd hn (by omega)
  | n + 1, off, _, hlen => by
    by_cases hr : off + 48 ≤ buf.length
    · have hn1 : 1 ≤ n := by omega
      obtain ⟨ws, hws⟩ := @readWords_ok buf 9 (off + 12) (by omega)
      have hrec := @parseBinRecords_rangeError buf n (off + 50) hn1 (by omega)
      simp [parseBinRecords, hws, hrec]
    · have hrd : readWords buf (off + 12) 9 = .error .rangeError :=
        readWords_rangeError 9 (off + 12) (by omega) (by omega)
      simp [parseBinRecords, hrd]

lemma parseBinRecords_ok {buf : List ℕ} :
    ∀ (n off : ℕ), off + 50 * n ≤ buf.length + 2 →
      ∃ ws, parseBinRecords buf n off = .ok ws
  | 0, _, _ => ⟨[], rfl⟩
  | n + 1, off, hlen => by
    obtain ⟨ws, hws⟩ := @readWords_ok buf 9 (off + 12) (by omega)
    obtain ⟨rest, hrest⟩ := @parseBinRecords_ok buf n (off + 50) (by omega)
    exact ⟨ws ++ rest, by simp [parseBinRecords, hws, hrest]⟩

/-- C1 (amended): the binary decoder performs no up-front bounds check
against the declared triangle count.  When the declared count's float data
does not fit in the buffer (`length < 50·N + 82`), decoding fails with the
`RangeError` of the out-of-range `DataView` read that discovers it — not
with a `FormatError` — and yields no partial output; and when the buffer
is short by only the trailing 2 attribute bytes (`length = 50·N + 82`),
decoding even succeeds, because the attribute bytes are stepped over but
never read. -/
theorem claim_binary_truncated :
    (∀ (buf : List ℕ) (n : ℕ), isASCIISTL buf = false → getWordLE buf 80 = .ok n →
        buf.length < 50 * n + 82 → parseSTL buf = .error .rangeError) ∧
    (∀ (buf : List ℕ) (n : ℕ), isASCIISTL buf = false → getWordLE buf 80 = .ok n →
        1 ≤ n → buf.length = 50 * n + 82 → ∃ ws, parseSTL buf = .ok (.bin ws)) := by
  constructor
  · intro buf n hascii hn hlen
    have h84 : 84 ≤ buf.length := by
      by_contra hc
      push_neg at hc
      unfold getWordLE at hn
      rw [if_neg (by omega)] at hn
      exact absurd hn (by simp)
    have hn1 : 1 ≤ n := by omega
    have hrec : parseBinRecords buf n 84 = .error .rangeError :=
      parseBinRecords_rangeError n 84 hn1 (by omega)
    simp [parseSTL, hascii, parseBinarySTL, hn, hrec]
  · intro buf n hascii hn hn1 hlen
    obtain ⟨ws, hws⟩ := @parseBinRecords_ok buf n 84 (by omega)
    exact ⟨ws, by simp [parseSTL, hascii, parseBinarySTL, hn, hws]⟩

/-! ### Round-trip lemmas (C9) -/

lemma le4_length (w : ℕ) : (le4 w).length = 4 := rfl

lemma getWordLE_encoded {pre suf : List ℕ} {w : ℕ} (hw : w < 2 ^ 32) :
    getWordLE (pre ++ (le4 w ++ suf)) pre.length = .ok w := by
  have hlen : pre.length + 4 ≤ (pre ++ (le4 w ++ suf)).length := by
    rw [List.length_append, List.length_append, le4_length]
    omega
  have hget : ∀ i, i < 4 → (pre ++ (le4 w ++ suf)).getD (pre.length + i) 0 =
      (le4 w).getD i 0 := by
    intro i hi
    rw [List.getD_append_right pre (le4 w ++ suf) 0 (pre.length + i) (by omega)]
    have h2 : pre.length + i - pre.length = i := by omega
    rw [h2, List.getD_append (le4 w) suf 0 i (by rw [le4_length]; omega)]
  unfold getWordLE
  rw [if_pos hlen]
  have e0 := hget 0 (by omega)
  have e1 := hget 1 (by omega)
  have e2 := hget 2 (by omega)
  have e3 := hget 3 (by omega)
  rw [Nat.add_zero] at e0
  rw [e0, e1, e2, e3]
  unfold le4
  simp only [List.getD_cons_zero, List.getD_cons_succ]
  have : w % 256 + 256 * (w / 256 % 256) + 65536 * (w / 65536 % 256) +
      16777216 * (w / 16777216 % 256) = w := by omega
  rw [this]

lemma readWords_encoded :
    ∀ (ws : List ℕ) (pre suf : List ℕ), (∀ w ∈ ws, w < 2 ^ 32) →
      readWords (pre ++ (ws.flatMap le4 ++ suf)) pre.length ws.length = .ok ws
  | [], pre, suf, _ => rfl
  | w :: ws, pre, suf, hw => by
    have hw0 : w < 2 ^ 32 := hw w (List.mem_cons_self _ _)
    have hrest : ∀ x ∈ ws, x < 2 ^ 32 := fun x hx => hw x (List.mem_cons_of_mem _ hx)
    have hbuf : pre ++ ((w :: ws).flatMap le4 ++ suf) =
        pre ++ (le4 w ++ (ws.flatMap le4 ++ suf)) := by
      simp [List.flatMap_cons, List.append_assoc]
    rw [hbuf]
    have hfirst : getWordLE (pre ++ (le4 w ++ (ws.flatMap le4 ++ suf))) pre.length =
        .ok w := getWordLE_encoded hw0
    have hlen2 : pre.length + 4 = (pre ++ le4 w).length := by
      rw [List.length_append, le4_length]
    have hrec : readWords (pre ++ (le4 w ++ (ws.flatMap le4 ++ suf))) (pre.length + 4)
        ws.length = .ok ws := by
      rw [show pre ++ (le4 w ++ (ws.flatMap le4 ++ suf)) =
        (pre ++ le4 w) ++ (ws.flatMap le4 ++ suf) from (List.append_assoc _ _ _).symm, hlen2]
      exact readWords_encoded ws (pre ++ le4 w) suf hrest
    show readWords _ pre.length (ws.length + 1) = .ok (w :: ws)
    simp [readWords, hfirst, hrec]

lemma flatMap_le4_length (t : List ℕ) : (t.flatMap le4).length = 4 * t.length := by
  induction t with
  | nil => rfl
  | cons a r ih =>
    rw [List.flatMap_cons, List.length_append, le4_length, ih, List.length_cons]
    omega

lemma encodeTriangle_length {t : List ℕ} (h9 : t.length = 9) :
    (encodeTriangle t).length = 50 := by
  unfold encodeTriangle
  rw [List.length_append, List.length_append, flatMap_le4_length, h9]
  rfl

lemma parseBinRecords_encoded :
    ∀ (tris : List (List ℕ)) (pre : List ℕ), (∀ t ∈ tris, t.length = 9) →
      (∀ t ∈ tris, ∀ w ∈ t, w < 2 ^ 32) →
      parseBinRecords (pre ++ tris.flatMap encodeTriangle) tris.length pre.length =
        .ok tris.flatten
  | [], pre, _, _ => rfl
  | t :: ts, pre, h9, hw => by
    have ht9 : t.length = 9 := h9 t (List.mem_cons_self _ _)
    have htw : ∀ w ∈ t, w < 2 ^ 32 := hw t (List.mem_cons_self _ _)
    have hbuf : pre ++ (t :: ts).flatMap encodeTriangle =
        (pre ++ List.replicate 12 0) ++ (t.flatMap le4 ++
          ([0, 0] ++ ts.flatMap encodeTriangle)) := by
      simp [List.flatMap_cons, encodeTriangle, List.append_assoc]
    have hlen12 : pre.length + 12 = (pre ++ List.replicate 12 0).length := by simp
    have hfirst : readWords (pre ++ (t :: ts).flatMap encodeTriangle) (pre.length + 12) 9 =
        .ok t := by
      rw [hbuf, hlen12, show (9 : ℕ) = t.length by rw [ht9]]
      exact readWords_encoded t (pre ++ List.replicate 12 0)
        ([0, 0] ++ ts.flatMap encodeTriangle) htw
    have hbuf2 : pre ++ (t :: ts).flatMap encodeTriangle =
        (pre ++ encodeTriangle t) ++ ts.flatMap encodeTriangle := by
      simp [List.flatMap_cons, List.append_assoc]
    have hlen50 : pre.length + 50 = (pre ++ encodeTriangle t).length := by
      rw [List.length_append, encodeTriangle_length ht9]
    have hrec : parseBinRecords (pre ++ (t :: ts).flatMap encodeTriangle) ts.length
        (pre.length + 50) = .ok ts.flatten := by
      rw [hbuf2, hlen50]
      exact parseBinRecords_encoded ts (pre ++ encodeTriangle t)
        (fun x hx => h9 x (List.mem_cons_of_mem _ hx))
        (fun x hx => hw x (List.mem_cons_of_mem _ hx))
    show parseBinRecords _ (ts.length + 1) pre.length = .ok (t :: ts).flatten
    simp only [parseBinRecords]
    rw [hfirst]
    simp only [ebind_ok]
    rw [hrec]
    simp only [ebind_ok, List.flatten_cons]

/-- C9: encoding any triangle list in the fixed binary STL layout (80-byte
zero header, which does not begin with `solid`; little-endian 32-bit
triangle count; 50-byte records of 12 normal bytes, nine little-endian
32-bit float words, 2 attribute bytes) and decoding reproduces exactly the
original vertex word sequence, bit for bit. -/
theorem claim_binary_roundtrip (tris : List (List ℕ)) (h9 : ∀ t ∈ tris, t.length = 9)
    (hw : ∀ t ∈ tris, ∀ w ∈ t, w < 2 ^ 32) (hn : tris.length < 2 ^ 32) :
    parseSTL (encodeBinarySTL tris) = .ok (.bin tris.flatten) := by
  have hbuf : encodeBinarySTL tris =
      List.replicate 80 0 ++ (le4 tris.length ++ tris.flatMap encodeTriangle) := by
    unfold encodeBinarySTL
    rw [List.append_assoc]
  have hlen84 : 84 ≤ (encodeBinarySTL tris).length := by
    rw [hbuf]
    simp [le4]
  have htake : (encodeBinarySTL tris).take 5 = List.replicate 5 0 := by
    rw [hbuf, List.take_append_of_le_length (by simp), List.take_replicate]
    rfl
  have hascii : isASCIISTL (encodeBinarySTL tris) = false := by
    unfold isASCIISTL
    rw [htake]
    simp only [Bool.or_eq_false_iff]
    constructor
    · simp only [decide_eq_false_iff_not, not_lt]
      omega
    · simp [solidBytes]
  have hcount : getWordLE (encodeBinarySTL tris) 80 = .ok tris.length := by
    rw [hbuf, show (80 : ℕ) = (List.replicate 80 (0 : ℕ)).length by simp]
    exact getWordLE_encoded hn
  have hrecords : parseBinRecords (encodeBinarySTL tris) tris.length 84 = .ok tris.flatten := by
    have hbuf2 : encodeBinarySTL tris =
        (List.replicate 80 0 ++ le4 tris.length) ++ tris.flatMap encodeTriangle := by
      unfold encodeBinarySTL
      rw [List.append_assoc]
    have hlen2 : (84 : ℕ) = (List.replicate 80 (0 : ℕ) ++ le4 tris.length).length := by
      rw [List.length_append, le4_length, List.length_replicate]
    rw [hbuf2, hlen2]
    exact parseBinRecords_encoded tris _ h9 hw
  simp [parseSTL, hascii, parseBinarySTL, hcount, hrecords]

/-! ### ASCII decoder lemmas (C7) -/

lemma splitOnChar_ne_nil (sep : Char) : ∀ cs : List Char, splitOnChar sep cs ≠ []
  | [] => by simp [splitOnChar]
  | ch :: rest => by
    unfold splitOnChar
    by_cases h : ch = sep
    · rw [if_pos h]
      simp
    · rw [if_neg h]
      simp

lemma splitOnChar_nil (sep : Char) : splitOnChar sep [] = [[]] := rfl

lemma splitOnChar_cons (sep ch : Char) (rest : List Char) :
    splitOnChar sep (ch :: rest) =
      if ch = sep then [] :: splitOnChar sep rest
      else (ch :: (splitOnChar sep rest).headD []) :: (splitOnChar sep rest).tail := rfl

lemma splitOnChar_append (sep : Char) :
    ∀ l1 l2 : List Char,
      splitOnChar sep (l1 ++ sep :: l2) = splitOnChar sep l1 ++ splitOnChar sep l2
  | [], l2 => by
    show splitOnChar sep (sep :: l2) = splitOnChar sep [] ++ splitOnChar sep l2
    rw [splitOnChar_cons, if_pos rfl, splitOnChar_nil]
    rfl
  | ch :: l1, l2 => by
    rw [List.cons_append, splitOnChar_cons, splitOnChar_cons,
      splitOnChar_append sep l1 l2]
    by_cases h : ch = sep
    · rw [if_pos h, if_pos h]
      rfl
    · rw [if_neg h, if_neg h]
      cases hsp : splitOnChar sep l1 with
      | nil => exact absurd hsp (splitOnChar_ne_nil sep l1)
      | cons a r => rfl

lemma parseASCIISTL_foldr_init :
    ∀ (A : List (List Char)) (X : List JVal),
      A.foldr (fun line acc => lineVertexVals line ++ acc) X =
        A.foldr (fun line acc => lineVertexVals line ++ acc) [] ++ X
  | [], X => rfl
  | a :: A, X => by
    simp only [List.foldr_cons]
    rw [parseASCIISTL_foldr_init A X, List.append_assoc]

/-- C7 (amended): the ASCII path never fails — dispatching an ASCII-mode
buffer always yields a successful parse of its decoded text; the parse
splits at newlines and concatenates per-line contributions; and a line
whose trimmed text starts with `vertex` contributes all its remaining
whitespace tokens converted with `Number`, however many there are — there
is no check for three numeric tokens and no `FormatError`. -/
theorem claim_ascii_short_vertex :
    (∀ buf : List ℕ, isASCIISTL buf = true →
        parseSTL buf = .ok (.ascii (parseASCIISTL (asciiDecode buf)))) ∧
    (∀ l1 l2 : List Char,
        parseASCIISTL (l1 ++ '\n' :: l2) = parseASCIISTL l1 ++ parseASCIISTL l2) ∧
    (∀ line : List Char, startsWithTok vertexTok (trimChars line) = true →
        lineVertexVals line = ((tokensOf (trimChars line)).drop 1).map jsNumber) := by
  refine ⟨?_, ?_, ?_⟩
  · intro buf h
    simp [parseSTL, h]
  · intro l1 l2
    unfold parseASCIISTL
    rw [splitOnChar_append, List.foldr_append, parseASCIISTL_foldr_init]
  · intro line h
    unfold lineVertexVals
    rw [if_pos h]

/-! ### Concrete runs

The function parameters below agree with the real library functions at
every argument the runs evaluate: `sqOne`/`sqFive`/`sqZero` match
`Math.sqrt` at the arguments that arise (`sqrt 256 = 16` is irrelevant to
the outputs below because only positivity and the derived cell size enter,
and the accepted sets are forced for any positive value; `sqrt 0 = 0`),
and `sZero`/`cOne` match `Math.sin`/`Math.cos` at `0`, the only argument
the colour of the decisive points evaluates (`sin 0 = 0`, `cos 0 = 1`). -/

def sqOne : ℚ → ℚ := fun _ => 1

def sqFive : ℚ → ℚ := fun _ => 5

def sqZero : ℚ → ℚ := fun _ => 0

def sZero : ℚ → ℚ := fun _ => 0

def cOne : ℚ → ℚ := fun _ => 1

/-! Run A: the triangle `(0,0,0), (0,0,4), (0,4,0)` (flat in `x`, area 8,
`y` extent 4) sampled with target count 1.  Its first candidate is the top
vertex `(0,4,0)`, which is accepted; its colour has height factor 1 and is
`(0.9, 1.0, 1.2)`. -/

def vertsA : List ℚ := [0, 0, 0, 0, 0, 4, 0, 4, 0]

def triA : Tri := (⟨0, 0, 0⟩, ⟨0, 0, 4⟩, ⟨0, 4, 0⟩)

def sbA : ShapeBoundary := defineShapeBoundary sqOne vertsA

lemma sbA_eq : sbA = ⟨[triA], [1 / 2], 1 / 2,
    ⟨⟨0, 0, 0⟩, ⟨0, 4, 4⟩, ⟨0, 4, 4⟩⟩, ⟨0, 2, 2⟩, 4 / 5⟩ := by
  unfold sbA defineShapeBoundary
  rw [show facesOf vertsA = [triA] from facesOf_triVerts ⟨0, 0, 0⟩ ⟨0, 0, 4⟩ ⟨0, 4, 0⟩]
  norm_num [triA, faceVerts, foldMinQ, foldMaxQ, crossMagSq, subV, sqOne]

lemma speA : ceilSqrt (faceSampleCount (1 / 2) (1 / 2) 1) = 2 := by
  have h1 : faceSampleCount (1 / 2) (1 / 2) 1 = 3 := by
    unfold faceSampleCount
    norm_num
    rfl
  rw [h1]
  unfold ceilSqrt
  rw [show List.range 4 = [0, 1, 2, 3] from rfl]
  norm_num [List.find?]

lemma candsA_eq : genCandidates sbA 1 =
    [(⟨0, 4, 0⟩, 0), (⟨0, 2, 2⟩, 0), (⟨0, 0, 4⟩, 0), (⟨0, 2, 0⟩, 0), (⟨0, 0, 2⟩, 0)] := by
  unfold genCandidates
  rw [sbA_eq]
  show (if (1 / 2 : ℚ) = 0 then _ else _) = _
  rw [if_neg (by norm_num)]
  show (joinMap _ (withIdx 0 ([triA].zip [1 / 2]))).take (1 * 5) = _
  rw [show [triA].zip [(1 / 2 : ℚ)] = [(triA, 1 / 2)] from rfl]
  rw [withIdx_cons, withIdx_nil, joinMap_cons, joinMap_nil]
  unfold faceCandidates
  rw [speA]
  unfold faceGrid
  rw [show List.range (2 + 1) = [0, 1, 2] from rfl]
  rw [joinMap_cons, joinMap_cons, joinMap_cons, joinMap_nil]
  rw [show (2 : ℕ) - 0 + 1 = 3 from rfl, show (2 : ℕ) - 1 + 1 = 2 from rfl,
    show (2 : ℕ) - 2 + 1 = 1 from rfl]
  rw [show List.range 3 = [0, 1, 2] from rfl, show List.range 2 = [0, 1] from rfl,
    show List.range 1 = [0] from rfl]
  norm_num [List.filterMap_cons, baryPoint, triA]

def runA : PCData := createSparsePointCloud sqOne sZero cOne id vertsA 1

lemma runA_eq : runA = ⟨[⟨0, 4, 0⟩], [(.num (9 / 10), .num 1, .num (6 / 5))]⟩ := by
  unfold runA createSparsePointCloud generatePointsInShape
  simp only [id_eq]
  rw [show defineShapeBoundary sqOne vertsA = sbA from rfl, candsA_eq]
  have hmd : minDistanceOf sqOne sbA.totalArea 1 = 14 / 25 := by
    rw [sbA_eq]
    norm_num [minDistanceOf, sqOne]
  rw [hmd, sbA_eq]
  rw [selectGo]
  rw [if_neg (by norm_num)]
  rw [if_pos (by norm_num [isPointInValidRegion, isValidDistance, dist2, neighborOffsets,
    joinMap, getHashKey])]
  rw [selectGo]
  rw [if_pos (by norm_num)]
  norm_num [colorOf, jdiv, jadd, jmul, jmin, jmax, sZero, cOne]

/-! Run B: the triangle `(4,0,0), (0,0,4), (0,4,0)` sampled with target
count 2 and a square-root stub returning 5, giving `minDistance = 14/5`.
Candidates `(0,4,0)` and `(0, 4/3, 8/3)` are accepted; the intermediate
candidate `(0, 8/3, 4/3)` is rejected by the spatial-hash distance test
(it lies `sqrt(32/9) < 14/5` from the first point, found in the adjacent
cell `(0,1,0)` of the 3×3×3 neighborhood). -/

def vertsB : List ℚ := [4, 0, 0, 0, 0, 4, 0, 4, 0]

def triB : Tri := (⟨4, 0, 0⟩, ⟨0, 0, 4⟩, ⟨0, 4, 0⟩)

def sbB : ShapeBoundary := defineShapeBoundary sqFive vertsB

lemma sbB_eq : sbB = ⟨[triB], [5 / 2], 5 / 2,
    ⟨⟨0, 0, 0⟩, ⟨4, 4, 4⟩, ⟨4, 4, 4⟩⟩, ⟨2, 2, 2⟩, 4 / 5⟩ := by
  unfold sbB defineShapeBoundary
  rw [show facesOf vertsB = [triB] from facesOf_triVerts ⟨4, 0, 0⟩ ⟨0, 0, 4⟩ ⟨0, 4, 0⟩]
  norm_num [triB, faceVerts, foldMinQ, foldMaxQ, crossMagSq, subV, sqFive]

lemma speB : ceilSqrt (faceSampleCount (5 / 2) (5 / 2) 2) = 3 := by
  have h1 : faceSampleCount (5 / 2) (5 / 2) 2 = 6 := by
    unfold faceSampleCount
    norm_num
    rfl
  rw [h1]
  unfold ceilSqrt
  rw [show List.range 7 = [0, 1, 2, 3, 4, 5, 6] from rfl]
  norm_num [List.find?]

lemma candsB_eq : genCandidates sbB 2 =
    [(⟨0, 4, 0⟩, 0), (⟨0, 8 / 3, 4 / 3⟩, 0), (⟨0, 4 / 3, 8 / 3⟩, 0), (⟨0, 0, 4⟩, 0),
      (⟨4 / 3, 8 / 3, 0⟩, 0), (⟨4 / 3, 4 / 3, 4 / 3⟩, 0), (⟨4 / 3, 0, 8 / 3⟩, 0),
      (⟨8 / 3, 4 / 3, 0⟩, 0), (⟨8 / 3, 0, 4 / 3⟩, 0), (⟨4, 0, 0⟩, 0)] := by
  unfold genCandidates
  rw [sbB_eq]
  show (if (5 / 2 : ℚ) = 0 then _ else _) = _
  rw [if_neg (by norm_num)]
  show (joinMap _ (withIdx 0 ([triB].zip [5 / 2]))).take (2 * 5) = _
  rw [show [triB].zip [(5 / 2 : ℚ)] = [(triB, 5 / 2)] from rfl]
  rw [withIdx_cons, withIdx_nil, joinMap_cons, joinMap_nil]
  unfold faceCandidates
  rw [speB]
  unfold faceGrid
  rw [show List.range (3 + 1) = [0, 1, 2, 3] from rfl]
  rw [joinMap_cons, joinMap_cons, joinMap_cons, joinMap_cons, joinMap_nil]
  rw [show (3 : ℕ) - 0 + 1 = 4 from rfl, show (3 : ℕ) - 1 + 1 = 3 from rfl,
    show (3 : ℕ) - 2 + 1 = 2 from rfl, show (3 : ℕ) - 3 + 1 = 1 from rfl]
  rw [show List.range 4 = [0, 1, 2, 3] from rfl, show List.range 3 = [0, 1, 2] from rfl,
    show List.range 2 = [0, 1] from rfl, show List.range 1 = [0] from rfl]
  norm_num [List.filterMap_cons, baryPoint, triB]

def runB : PCData := createSparsePointCloud sqFive sZero cOne id vertsB 2

lemma runB_eq : runB = ⟨[⟨0, 4, 0⟩, ⟨0, 4 / 3, 8 / 3⟩],
    [(.num (9 / 10), .num 1, .num (6 / 5)), (.num (3 / 4), .num (5 / 6), .num 1)]⟩ := by
  unfold runB createSparsePointCloud generatePointsInShape
  simp only [id_eq]
  rw [show defineShapeBoundary sqFive vertsB = sbB from rfl, candsB_eq]
  have hmd : minDistanceOf sqFive sbB.totalArea 2 = 14 / 5 := by
    rw [sbB_eq]
    norm_num [minDistanceOf, sqFive]
  rw [hmd, sbB_eq]
  rw [selectGo]
  rw [if_neg (by norm_num)]
  rw [if_pos (by norm_num [isPointInValidRegion, isValidDistance, dist2, neighborOffsets,
    joinMap, getHashKey])]
  rw [selectGo]
  rw [if_neg (by norm_num)]
  rw [if_neg (by norm_num [isPointInValidRegion, isValidDistance, dist2, neighborOffsets,
    joinMap, getHashKey, addToSpatialHash, Prod.mk.injEq])]
  rw [selectGo]
  rw [if_neg (by norm_num)]
  rw [if_pos (by norm_num [isPointInValidRegion, isValidDistance, dist2, neighborOffsets,
    joinMap, getHashKey, addToSpatialHash, Prod.mk.injEq])]
  rw [selectGo]
  rw [if_pos (by norm_num)]
  norm_num [colorOf, jdiv, jadd, jmul, jmin, jmax, sZero, cOne]

/-! Run C: the triangle `(0,0,0), (4,0,0), (0,0,4)` is flat in `y`
(`size.y = 0`).  Its first candidate `(0,0,4)` is accepted, and the
unguarded height division makes its colour all-NaN. -/

def vertsC : List ℚ := [0, 0, 0, 4, 0, 0, 0, 0, 4]

def triC : Tri := (⟨0, 0, 0⟩, ⟨4, 0, 0⟩, ⟨0, 0, 4⟩)

def sbC : ShapeBoundary := defineShapeBoundary sqOne vertsC

lemma sbC_eq : sbC = ⟨[triC], [1 / 2], 1 / 2,
    ⟨⟨0, 0, 0⟩, ⟨4, 0, 4⟩, ⟨4, 0, 4⟩⟩, ⟨2, 0, 2⟩, 4 / 5⟩ := by
  unfold sbC defineShapeBoundary
  rw [show facesOf vertsC = [triC] from facesOf_triVerts ⟨0, 0, 0⟩ ⟨4, 0, 0⟩ ⟨0, 0, 4⟩]
  norm_num [triC, faceVerts, foldMinQ, foldMaxQ, crossMagSq, subV, sqOne]

lemma candsC_eq : genCandidates sbC 1 =
    [(⟨0, 0, 4⟩, 0), (⟨2, 0, 2⟩, 0), (⟨4, 0, 0⟩, 0), (⟨0, 0, 2⟩, 0), (⟨2, 0, 0⟩, 0)] := by
  unfold genCandidates
  rw [sbC_eq]
  show (if (1 / 2 : ℚ) = 0 then _ else _) = _
  rw [if_neg (by norm_num)]
  show (joinMap _ (withIdx 0 ([triC].zip [1 / 2]))).take (1 * 5) = _
  rw [show [triC].zip [(1 / 2 : ℚ)] = [(triC, 1 / 2)] from rfl]
  rw [withIdx_cons, withIdx_nil, joinMap_cons, joinMap_nil]
  unfold faceCandidates
  rw [speA]
  unfold faceGrid
  rw [show List.range (2 + 1) = [0, 1, 2] from rfl]
  rw [joinMap_cons, joinMap_cons, joinMap_cons, joinMap_nil]
  rw [show (2 : ℕ) - 0 + 1 = 3 from rfl, show (2 : ℕ) - 1 + 1 = 2 from rfl,
    show (2 : ℕ) - 2 + 1 = 1 from rfl]
  rw [show List.range 3 = [0, 1, 2] from rfl, show List.range 2 = [0, 1] from rfl,
    show List.range 1 = [0] from rfl]
  norm_num [List.filterMap_cons, baryPoint, triC]

def runC : PCData := createSparsePointCloud sqOne sZero sZero id vertsC 1

lemma runC_eq : runC = ⟨[⟨0, 0, 4⟩], [(.nan, .nan, .nan)]⟩ := by
  unfold runC createSparsePointCloud generatePointsInShape
  simp only [id_eq]
  rw [show defineShapeBoundary sqOne vertsC = sbC from rfl, candsC_eq]
  have hmd : minDistanceOf sqOne sbC.totalArea 1 = 14 / 25 := by
    rw [sbC_eq]
    norm_num [minDistanceOf, sqOne]
  rw [hmd, sbC_eq]
  rw [selectGo]
  rw [if_neg (by norm_num)]
  rw [if_pos (by norm_num [isPointInValidRegion, isValidDistance, dist2, neighborOffsets,
    joinMap, getHashKey])]
  rw [selectGo]
  rw [if_pos (by norm_num)]
  norm_num [colorOf, jdiv, jadd, jmul, jmin, jmax, sZero]

/-! ### Counterexamples and witnesses -/

/-- A 130-byte binary buffer declaring 1 triangle: 80-byte zero header,
little-endian count 1, then only 46 of the 50 record bytes. -/
def bufTrunc : List ℕ := List.replicate 80 0 ++ [1, 0, 0, 0] ++ List.replicate 46 0

/-- A 132-byte binary buffer declaring 1 triangle: complete except for the
2 trailing attribute bytes. -/
def bufSlack : List ℕ := List.replicate 80 0 ++ [1, 0, 0, 0] ++ List.replicate 48 0

/-- C1 counterexample: on a binary buffer whose declared triangle count
overruns the buffer, decode fails with the out-of-bounds `RangeError` —
not with `FormatError`, and with no check before the reads. -/
theorem claim_binary_truncated_cex :
    parseSTL bufTrunc = .error .rangeError ∧
      STLError.rangeError ≠ STLError.formatError := by
  constructor
  · decide
  · decide

/-- C1 witness: the amended theorem applied at the concrete 130-byte
buffer (fails by `RangeError`) and the concrete 132-byte buffer (succeeds
although 2 bytes short of `84 + 50·N`). -/
theorem claim_binary_truncated_witness :
    parseSTL bufTrunc = .error .rangeError ∧
      ∃ ws, parseSTL bufSlack = .ok (.bin ws) :=
  ⟨claim_binary_truncated.1 bufTrunc 1 (by decide) (by decide) (by decide),
   claim_binary_truncated.2 bufSlack 1 (by decide) (by decide) (by decide) (by decide)⟩

/-- The bytes of the ASCII text `solid\nvertex 1 2\nendsolid`: a vertex
line with only two numeric tokens. -/
def asciiShortBuf : List ℕ :=
  [115, 111, 108, 105, 100, 10, 118, 101, 114, 116, 101, 120, 32, 49, 32, 50,
   10, 101, 110, 100, 115, 111, 108, 105, 100]

/-- The characters `solid`. -/
def solidLine : List Char := ['s', 'o', 'l', 'i', 'd']

/-- The characters `vertex 1 2`. -/
def shortVertexLine : List Char := ['v', 'e', 'r', 't', 'e', 'x', ' ', '1', ' ', '2']

/-- C7 counterexample: an ASCII buffer whose vertex line has only two
numeric tokens decodes successfully (no `FormatError`), silently yielding
a vertex stream of length 2 — not a multiple of 3. -/
theorem claim_ascii_short_vertex_cex :
    parseSTL asciiShortBuf = .ok (.ascii [.num 1, .num 2]) ∧
      (parseASCIISTL (asciiDecode asciiShortBuf)).length % 3 = 2 := by
  constructor
  · decide
  · decide

/-- C7 witness: the amended theorem applied at the concrete buffer and at
the concrete line split. -/
theorem claim_ascii_short_vertex_witness :
    parseSTL asciiShortBuf = .ok (.ascii (parseASCIISTL (asciiDecode asciiShortBuf))) ∧
      parseASCIISTL (solidLine ++ '\n' :: shortVertexLine) =
        parseASCIISTL solidLine ++ parseASCIISTL shortVertexLine :=
  ⟨claim_ascii_short_vertex.1 asciiShortBuf (by decide),
   claim_ascii_short_vertex.2.1 solidLine shortVertexLine⟩

/-- One triangle of nine small float words. -/
def triWords : List (List ℕ) := [[1, 2, 3, 4, 5, 6, 7, 8, 9]]

/-- C9 witness: the round-trip theorem applied at a concrete one-triangle
list. -/
theorem claim_binary_roundtrip_witness :
    parseSTL (encodeBinarySTL triWords) = .ok (.bin [1, 2, 3, 4, 5, 6, 7, 8, 9]) := by
  have h := claim_binary_roundtrip triWords (by decide) (by decide) (by decide)
  rwa [show triWords.flatten = [1, 2, 3, 4, 5, 6, 7, 8, 9] from rfl] at h

/-- C2 counterexample: run C's mesh is flat in `y` and has positive total
area; its accepted point is emitted with the all-NaN colour — the height
normalisation is not guarded and the emitted components are not finite. -/
theorem claim_flat_y_colors_nan_cex :
    runC.points = [⟨0, 0, 4⟩] ∧ runC.colors = [(.nan, .nan, .nan)] ∧
      (defineShapeBoundary sqOne vertsC).boundingBox.size.y = 0 ∧
      0 < (defineShapeBoundary sqOne vertsC).totalArea := by
  refine ⟨by rw [runC_eq], by rw [runC_eq], ?_, ?_⟩
  · rw [show defineShapeBoundary sqOne vertsC = sbC from rfl, sbC_eq]
  · rw [show defineShapeBoundary sqOne vertsC = sbC from rfl, sbC_eq]
    norm_num

/-- C2 witness: the amended theorem applied to run C — its first emitted
colour is the all-NaN triple. -/
theorem claim_flat_y_colors_nan_witness :
    runC.colors.getD 0 (.num 0, .num 0, .num 0) = (.nan, .nan, .nan) := by
  have hflat : (defineShapeBoundary sqOne vertsC).boundingBox.size.y = 0 := by
    rw [show defineShapeBoundary sqOne vertsC = sbC from rfl, sbC_eq]
  have h := claim_flat_y_colors_nan sqOne sZero sZero id vertsC 1
    (fun l => List.Perm.refl l) hflat
  refine h _ ?_
  show runC.colors.getD 0 (.num 0, .num 0, .num 0) ∈ runC.colors
  rw [runC_eq]
  simp

/-- C6 counterexample: run A emits the colour `(0.9, 1.0, 1.2)` — its blue
component `6/5` exceeds 1, refuting the claim that every component lies in
`[0, 1]`. -/
theorem claim_color_range_cex :
    runA.colors = [(.num (9 / 10), .num 1, .num (6 / 5))] ∧ ¬ ((6 / 5 : ℚ) ≤ 1) := by
  refine ⟨by rw [runA_eq], by norm_num⟩

/-- C6 witness: the amended theorem applied to run A's first emitted
colour. -/
theorem claim_color_range_witness :
    (∃ i : ℚ, 3 / 10 ≤ i ∧ i ≤ 1 ∧
        runA.colors.getD 0 (.num 0, .num 0, .num 0) =
          (.num (i * (9 / 10)), .num (i * 1), .num (i * (12 / 10))) ∧
        0 ≤ i * (9 / 10) ∧ i * (9 / 10) ≤ 1 ∧ 0 ≤ i * 1 ∧ i * 1 ≤ 1 ∧
        0 ≤ i * (12 / 10) ∧ i * (12 / 10) ≤ 12 / 10) ∨
      runA.colors.getD 0 (.num 0, .num 0, .num 0) = (.nan, .nan, .nan) := by
  refine claim_color_range sqOne sZero cOne id vertsA 1 _ ?_
  show runA.colors.getD 0 (.num 0, .num 0, .num 0) ∈ runA.colors
  rw [runA_eq]
  simp

/-- C3 witness: the minimum-distance theorem applied to run B, whose two
accepted points are `sqrt(128/9) > 14/5` apart. -/
theorem claim_min_distance_invariant_witness :
    runB.points.length = 2 ∧
      List.Pairwise
        (fun p q =>
          minDistanceOf sqFive (defineShapeBoundary sqFive vertsB).totalArea 2 ^ 2 ≤
            dist2 p q)
        runB.points := by
  constructor
  · rw [runB_eq]
    rfl
  · exact claim_min_distance_invariant sqFive sZero cOne id vertsB 2
      (by rw [show defineShapeBoundary sqFive vertsB = sbB from rfl, sbB_eq]; norm_num)
      (by norm_num)
      (by norm_num [sqFive])

/-- C4 witness: the hollow-region theorem applied to run B's first
accepted point. -/
theorem claim_hollow_invariant_witness :
    0 ≤ (defineShapeBoundary sqFive vertsB).hollowRadius ∧
      (defineShapeBoundary sqFive vertsB).hollowRadius ^ 2 <
        dist2 (runB.points.getD 0 ⟨0, 0, 0⟩)
          (defineShapeBoundary sqFive vertsB).objectCenter := by
  refine claim_hollow_invariant sqFive sZero cOne id vertsB 2 (fun l => List.Perm.refl l)
    _ ?_
  show runB.points.getD 0 ⟨0, 0, 0⟩ ∈ runB.points
  rw [runB_eq]
  simp

/-- C10 witness: the surface-membership theorem applied to run B's first
accepted point. -/
theorem claim_surface_membership_witness :
    ∃ t ∈ (defineShapeBoundary sqFive vertsB).faces, ∃ u v w : ℚ,
      0 ≤ u ∧ 0 ≤ v ∧ 0 ≤ w ∧ u + v + w = 1 ∧
      runB.points.getD 0 ⟨0, 0, 0⟩ = baryPoint t u v w := by
  refine claim_surface_membership sqFive sZero cOne id vertsB 2 (fun l => List.Perm.refl l)
    _ ?_
  show runB.points.getD 0 ⟨0, 0, 0⟩ ∈ runB.points
  rw [runB_eq]
  simp

/-- C8 witness: the degenerate-triangle theorem applied to the collinear
triangle `(0,0,0), (1,0,0), (2,0,0)` with target count 7. -/
theorem claim_degenerate_triangle_witness :
    (defineShapeBoundary sqZero (triVerts ⟨0, 0, 0⟩ ⟨1, 0, 0⟩ ⟨2, 0, 0⟩)).totalArea = 0 ∧
      (createSparsePointCloud sqZero sZero sZero id
        (triVerts ⟨0, 0, 0⟩ ⟨1, 0, 0⟩ ⟨2, 0, 0⟩) 7).points = [] ∧
      (createSparsePointCloud sqZero sZero sZero id
        (triVerts ⟨0, 0, 0⟩ ⟨1, 0, 0⟩ ⟨2, 0, 0⟩) 7).colors = [] :=
  claim_degenerate_triangle sqZero sZero sZero id ⟨0, 0, 0⟩ ⟨1, 0, 0⟩ ⟨2, 0, 0⟩ 7
    (by norm_num [crossMagSq, subV]) rfl (fun l => List.Perm.refl l)

end PointCloud
